import Mathlib

/-!
Verification of the voice-interaction engine of the intellidoc_reader
repository (Rust sources under src/src-tauri/src).  Every definition below is
a shallow embedding of a function or data type of the repository, translated
from the source files named in its doc comment.

Modelling conventions, used throughout and referred to from the
doc comments:

* Rust `f32` values are carried as the exact rationals they denote, and
  each `f32` arithmetic operation of the timing-estimation and resampling
  code rounds its exact result to IEEE-754 binary32 through `fl` (round to
  nearest, ties to even, 24-bit significand, subnormal quanta below
  `2 ^ (-126)`, overflow to an infinity marker `f32Inf`), as the hardware
  does; integer-to-float casts round the same way (`natToF32`).  Casts
  `as u64` / `as usize` of `f32` values truncate toward zero and saturate
  (negative values to 0, values at or above `2 ^ 64` — including the
  infinity marker — to the type's maximum), as Rust float-to-int casts do
  (`f32CastNat`).  The speed arithmetic of `set_rate` and
  `process_voice_command` is kept over exact rationals: the claims about it
  are clamping/identity facts whose statements quantify over the stored
  values themselves, so no theorem there depends on rounding.
* Rust machine integers are modelled as `Nat` with an explicit `% 2 ^ 64`
  (or `% 2 ^ 32`) at the operations where the source can overflow; Rust
  release builds wrap (debug builds panic at the same inputs, so a claim
  that fails by wrapping fails in either build mode).
* Rust `&str` values are modelled as `List Char` (the sequence of Unicode
  scalar values).  Byte positions, which the source uses for slicing, are
  recovered through the UTF-8 length of each scalar (`utf8Len`).  A Rust
  byte slice `s[n..]`, which panics when `n` is out of bounds or not on a
  character boundary, is modelled by the partial `byteDrop`, whose `none`
  result marks exactly the panicking executions.
-/

/-! ### Small numeric helpers -/

/-- `2 ^ 64`, the modulus of Rust `u64` arithmetic. -/
def U64 : Nat := 2 ^ 64

/-- `2 ^ 32`, the modulus of Rust `u32` arithmetic. -/
def U32 : Nat := 2 ^ 32

/-- Rust `f32::clamp(lo, hi)`: returns `lo` if the value is below `lo`,
`hi` if above `hi`, the value itself otherwise. -/
def rustClamp (x lo hi : ℚ) : ℚ :=
  if x < lo then lo else if hi < x then hi else x

/-- Round to the nearest integer, ties to even — the rounding Rust's
float formatting (`{:.1}` etc.) applies to the exact value. -/
def roundHalfEven (q : ℚ) : ℤ :=
  let f : ℤ := ⌊q⌋
  let r : ℚ := q - (f : ℚ)
  if r < 1 / 2 then f
  else if 1 / 2 < r then f + 1
  else if f % 2 = 0 then f else f + 1

/-- Rust `format!("{:.1}", x)` on an `f32` value, modelled on the exact
rational: one decimal digit, nearest, ties to even. -/
def fmt1 (q : ℚ) : String :=
  let n : ℤ := roundHalfEven (q * 10)
  let a : Nat := n.natAbs
  let s : String := toString (a / 10) ++ "." ++ toString (a % 10)
  if n < 0 then "-" ++ s else s

/-- The dyadic value `2 ^ 128`, standing in for the `f32` infinities: every
finite `f32` magnitude is strictly below it, and a rounded result at or
above it overflows to `+inf`.  The only consumers of a possibly-infinite
value in the embedded code are comparisons and the saturating integer
casts, for which `2 ^ 128` behaves exactly as `+inf` does. -/
def f32Inf : ℚ := 2 ^ 128

/-- Rounding of an exact rational to IEEE-754 binary32 (round to nearest,
ties to even): the value an `f32` operation returns for the exact result
`q`.  The quantum is `2 ^ max (e - 23) (-149)` where `e = ⌊log₂ |q|⌋`
(24-bit significand; fixed quantum `2 ^ (-149)` in the subnormal range
below `2 ^ (-126)`), and a rounded magnitude at or above `2 ^ 128`
overflows to the infinity marker, as IEEE-754 prescribes for this rounding
direction. -/
def fl (q : ℚ) : ℚ :=
  if q = 0 then 0
  else
    let e : ℤ := Int.log 2 |q|
    let p : ℤ := max (e - 23) (-149)
    let r : ℚ := (roundHalfEven (|q| / 2 ^ p) : ℚ) * 2 ^ p
    let r2 : ℚ := if f32Inf ≤ r then f32Inf else r
    if q < 0 then -r2 else r2

/-- `f32` multiplication: the exact product, rounded to binary32. -/
def fmul (a b : ℚ) : ℚ := fl (a * b)

/-- `f32` division: the exact quotient, rounded to binary32; dividing a
non-zero value by zero yields a signed infinity, as `x / 0.0` does on
`f32`.  `0.0 / 0.0` is NaN; in the embedded computations a NaN can only
flow into a float-to-int cast, which Rust sends to 0, so it is modelled as
0 directly. -/
def fdiv (a b : ℚ) : ℚ :=
  if b = 0 then (if a < 0 then -f32Inf else if a = 0 then 0 else f32Inf)
  else fl (a / b)

/-- Integer-to-float casts (`as f32` on `u32` / `u64` / `usize` values):
the integer, rounded to binary32 (exact below `2 ^ 24`, rounded to nearest
even above — e.g. `u64::MAX as f32` is `2 ^ 64`). -/
def natToF32 (n : Nat) : ℚ := fl n

/-- Float-to-integer casts `as u64` / `as usize` (both 64-bit here): Rust
truncates toward zero and saturates — negative values to 0, values at or
above `2 ^ 64` (including `+inf`) to the type's maximum. -/
def f32CastNat (q : ℚ) : Nat :=
  if (U64 : ℚ) ≤ q then U64 - 1 else Int.toNat ⌊q⌋

/-! ### Character / string model -/

/-- Rust `char::is_whitespace`: the Unicode `White_Space` property
(exact list of the 25 scalar values). -/
def rustIsWhitespace (c : Char) : Bool :=
  (0x09 ≤ c.val && c.val ≤ 0x0D) || c.val == 0x20 || c.val == 0x85 ||
    c.val == 0xA0 || c.val == 0x1680 ||
    (0x2000 ≤ c.val && c.val ≤ 0x200A) || c.val == 0x2028 ||
    c.val == 0x2029 || c.val == 0x202F || c.val == 0x205F || c.val == 0x3000

/-- Rust `char::is_ascii_digit`. -/
def rustIsAsciiDigit (c : Char) : Bool :=
  '0' ≤ c && c ≤ '9'

/-- Number of bytes of the UTF-8 encoding of one scalar value. -/
def utf8Len (c : Char) : Nat :=
  if c.val < 0x80 then 1
  else if c.val < 0x800 then 2
  else if c.val < 0x10000 then 3
  else 4

/-- Byte length of a string, as Rust `str::len`. -/
def byteLen (s : List Char) : Nat := (s.map utf8Len).sum

/-- Rust byte slicing `s[n..]`: `none` exactly when the byte index is out of
bounds or not on a character boundary (the executions in which the source
panics). -/
def byteDrop : Nat → List Char → Option (List Char)
  | 0, s => some s
  | _ + 1, [] => none
  | n + 1, c :: rest =>
    if utf8Len c ≤ n + 1 then byteDrop (n + 1 - utf8Len c) rest else none

/-- U+0130 LATIN CAPITAL LETTER I WITH DOT ABOVE. -/
def latinCapitalIWithDot : Char := Char.ofNat 0x130

/-- U+0307 COMBINING DOT ABOVE. -/
def combiningDotAbove : Char := Char.ofNat 0x307

/-- U+212A KELVIN SIGN. -/
def kelvinSign : Char := Char.ofNat 0x212A

/-- U+2126 OHM SIGN. -/
def ohmSign : Char := Char.ofNat 0x2126

/-- U+212B ANGSTROM SIGN. -/
def angstromSign : Char := Char.ofNat 0x212B

/-- U+03C9 GREEK SMALL LETTER OMEGA. -/
def smallOmega : Char := Char.ofNat 0x3C9

/-- U+00E5 LATIN SMALL LETTER A WITH RING ABOVE. -/
def smallARing : Char := Char.ofNat 0xE5

/-- ASCII lowercasing of one character (identity off `A`–`Z`), the shape of
core `Char.toLower`. -/
def asciiLower (c : Char) : Char :=
  if 65 ≤ c.toNat ∧ c.toNat ≤ 90 then Char.ofNat (c.toNat + 32) else c

/-- Rust `str::to_lowercase`, per scalar value.  Modelled from the Unicode
case tables: U+0130 is the single scalar whose full lowercase mapping has
more than one character (`i` followed by U+0307), and U+212A → `k`,
U+2126 → `ω`, U+212B → `å` are the mappings that change the UTF-8 byte
length.  ASCII characters lowercase within ASCII.  Every remaining Unicode
mapping is one-to-one, preserves the byte length and maps non-ASCII to
non-ASCII; those mappings are modelled as the identity, which no theorem
below distinguishes from the real mapping. -/
def rustLowerChar (c : Char) : List Char :=
  if c = latinCapitalIWithDot then ['i', combiningDotAbove]
  else if c = kelvinSign then ['k']
  else if c = ohmSign then [smallOmega]
  else if c = angstromSign then [smallARing]
  else if c.val < 0x80 then [asciiLower c]
  else [c]

/-- Rust `str::to_lowercase` on a whole string. -/
def rustToLower (s : List Char) : List Char :=
  (s.map rustLowerChar).flatten

/-- Rust `str::trim`: remove leading and trailing Unicode whitespace. -/
def trimChars (s : List Char) : List Char :=
  ((s.dropWhile rustIsWhitespace).reverse.dropWhile rustIsWhitespace).reverse

/-- Rust `str::starts_with` (first argument is the pattern). -/
def startsWithC : List Char → List Char → Bool
  | [], _ => true
  | _ :: _, [] => false
  | a :: as, b :: bs => a == b && startsWithC as bs

/-- Rust `str::contains` with a string pattern (substring containment). -/
def containsSeq (needle : List Char) : List Char → Bool
  | [] => needle.isEmpty
  | c :: t => startsWithC needle (c :: t) || containsSeq needle t

/-- Worker of `splitWhitespaceChars`; `cur` holds the reversed current word. -/
def splitWSGo : List Char → List Char → List (List Char)
  | [], cur => if cur.isEmpty then [] else [cur.reverse]
  | c :: rest, cur =>
    if rustIsWhitespace c then
      if cur.isEmpty then splitWSGo rest []
      else cur.reverse :: splitWSGo rest []
    else splitWSGo rest (c :: cur)

/-- Rust `str::split_whitespace`: maximal runs of non-whitespace. -/
def splitWhitespaceChars (s : List Char) : List (List Char) :=
  splitWSGo s []

/-- Rust `str::split_once(':')`. -/
def splitOnceColon : List Char → Option (List Char × List Char)
  | [] => none
  | c :: rest =>
    if c = ':' then some ([], rest)
    else (splitOnceColon rest).map fun p => (c :: p.1, p.2)

/-- Rust `str::ends_with('?')`. -/
def endsWithQmark (s : List Char) : Bool :=
  s.getLast? == some '?'

/-- Numeric value of a list of ASCII digits (most significant first). -/
def digitsToNat (ds : List Char) : Nat :=
  ds.foldl (fun acc c => acc * 10 + (c.toNat - '0'.toNat)) 0

/-! ### Data model (src/src-tauri/src/voice/mod.rs) -/

/-- `WordTiming` (voice/mod.rs): word text, start/end in milliseconds,
confidence.  `u64` fields become `Nat`, `f32` confidence becomes `ℚ`. -/
structure WordTiming where
  word : List Char
  start_ms : Nat
  end_ms : Nat
  confidence : ℚ
deriving DecidableEq

/-- `ReadingPosition` (voice/mod.rs).  `u32`/`u64` fields become `Nat`. -/
structure ReadingPosition where
  document_id : String
  page : Nat
  paragraph_id : String
  word_index : Nat
  character_offset : Nat
  timestamp_ms : Nat
deriving DecidableEq

/-- `VoiceState` (voice/mod.rs). -/
inductive VoiceState where
  | Idle
  | Listening
  | Processing
  | Speaking
  | Reading
deriving DecidableEq

/-- `VoiceError` (voice/mod.rs); the `IoError` payload is kept abstract as a
message string like the others. -/
inductive VoiceError where
  | NotInitialized
  | InvalidState (msg : String)
  | AudioError (msg : String)
  | STTError (msg : String)
  | TTSError (msg : String)
  | ProviderNotAvailable (msg : String)
  | ModelNotFound (msg : String)
  | ApiError (msg : String)
  | IoError (msg : String)
deriving DecidableEq

/-- `AudioData` (voice/mod.rs): samples as exact rationals. -/
structure AudioData where
  samples : List ℚ
  sample_rate : Nat
  channels : Nat
deriving DecidableEq

/-! ### Word-timing estimation (src/src-tauri/src/voice/providers/mod.rs,
`estimate_word_timings`) -/

/-- The `ms_per_word` computation of `estimate_word_timings`
(voice/providers/mod.rs line 284): `(1000.0 / (2.5 * speaking_rate)) as u64`
— one `f32` multiplication and one `f32` division (the literals `1000.0`
and `2.5` are exactly representable), then the truncating, saturating cast.
At rate 0 (and at rates so tiny that `2.5 * rate` underflows to 0) the
division yields `+inf` and the cast saturates to `u64::MAX`; negative rates
give a negative quotient, cast to 0. -/
def msPerWordNat (speaking_rate : ℚ) : Nat :=
  f32CastNat (fdiv 1000 (fmul (5 / 2) speaking_rate))

/-- The per-word duration of `estimate_word_timings`
(voice/providers/mod.rs line 290):
`(ms_per_word as f32 * (word.len() as f32 / 5.0).max(0.5)) as u64`.
`wordLen` is `word.len()` — the UTF-8 byte length of the word; both
integer-to-float casts and the division and multiplication round to
binary32, `f32::max` on the (never-NaN) operands is the exact maximum, and
the final cast truncates and saturates at `u64::MAX`. -/
def wordDurationNat (ms_per_word : Nat) (wordLen : Nat) : Nat :=
  f32CastNat (fmul (natToF32 ms_per_word)
    (max (fdiv (natToF32 wordLen) 5) (1 / 2)))

/-- The accumulation loop of `estimate_word_timings`.  Each word's duration
is computed from its UTF-8 byte length (`word.len()` in the source, i.e.
`byteLen`); `current_ms` is the `u64` accumulator, and the addition
`current_ms + word_duration` wraps modulo `2 ^ 64` (Rust release semantics;
a debug build panics at the same inputs). -/
def estimateLoop (ms_per_word : Nat) : Nat → List (List Char) → List WordTiming
  | _, [] => []
  | current_ms, w :: ws =>
    let d := wordDurationNat ms_per_word (byteLen w)
    { word := w, start_ms := current_ms, end_ms := (current_ms + d) % U64,
      confidence := 1 } :: estimateLoop ms_per_word ((current_ms + d) % U64) ws

/-- `estimate_word_timings(text, speaking_rate)` (voice/providers/mod.rs):
split into whitespace-separated words, then assign consecutive timings
starting at 0. -/
def estimate_word_timings (text : List Char) (speaking_rate : ℚ) : List WordTiming :=
  estimateLoop (msPerWordNat speaking_rate) 0 (splitWhitespaceChars text)

/-- Total of the per-word durations; the accumulator of `estimateLoop` never
wraps iff this stays below `2 ^ 64`. -/
def totalDuration (ms_per_word : Nat) (ws : List (List Char)) : Nat :=
  (ws.map fun w => wordDurationNat ms_per_word (byteLen w)).sum

/-! ### Audio utilities (src/src-tauri/src/voice/audio.rs) -/

/-- `PiperTTS` (voice/providers/piper.rs); the `Arc<AtomicBool>` flag is a
plain `Bool`. -/
structure PiperTTS where
  model_path : String
  config_path : String
  speaking_rate : ℚ
  is_speaking : Bool
  piper_path : Option String
deriving DecidableEq

/-- `PiperTTS::set_rate` (voice/providers/piper.rs line 259):
`self.speaking_rate = rate.clamp(0.25, 3.0)`. -/
def PiperTTS.set_rate (p : PiperTTS) (rate : ℚ) : PiperTTS :=
  { p with speaking_rate := rustClamp rate (1 / 4) 3 }

/-! ### Command parser (src/src-tauri/src/voice/commands.rs) -/

/-- `SummarizeScope` (voice/commands.rs). -/
inductive SummarizeScope where
  | Selection
  | Page
  | Section
  | Document
deriving DecidableEq

/-- `PageDirection` (voice/commands.rs). -/
inductive PageDirection where
  | Next
  | Previous
deriving DecidableEq

/-- `ZoomDirection` (voice/commands.rs). -/
inductive ZoomDirection where
  | In
  | Out
deriving DecidableEq

/-- `VoiceCommand` (voice/commands.rs).  String payloads are `List Char`;
`u32` page numbers are `Nat` (bounded below `2 ^ 32` where produced); `f32`
speeds are `ℚ`. -/
inductive VoiceCommand where
  | NoteDown (content : List Char)
  | Highlight (color : Option (List Char))
  | StartReading
  | StopReading
  | SkipSection
  | GoBack
  | GoToPage (page : Nat)
  | AskQuestion (question : List Char)
  | ExplainSelection
  | Summarize (scope : SummarizeScope)
  | AdjustSpeed (delta : ℚ)
  | SetSpeed (speed : ℚ)
  | Repeat
  | Define (word : List Char)
  | Translate (target_language : List Char)
  | Search (query : List Char)
  | NavigatePage (direction : PageDirection)
  | Zoom (direction : ZoomDirection)
  | FreeText (text : List Char)
  | Unknown (text : List Char)
deriving DecidableEq

/-- The note-command prefix table (voice/commands.rs lines 220–230). -/
def notePrefixes : List (List Char) :=
  ["note down".data, "note".data, "write down".data, "write".data,
   "add note".data, "take note".data, "remember".data,
   "记下".data, "メモ".data]

/-- The loop body of `parse_note_command` (voice/commands.rs lines 232–248).
Outer `none` marks the panicking execution of `original[skip_len..]`
(out-of-bounds or mid-character byte index); `some none` means no prefix
produced a non-empty content; `some (some c)` is a match. -/
def noteLoop (lower original : List Char) : List (List Char) → Option (Option (List Char))
  | [] => some none
  | p :: ps =>
    if startsWithC p lower then
      if lower.contains ':' then
        match splitOnceColon original with
        | some pr =>
          let c := trimChars pr.2
          if c.isEmpty then noteLoop lower original ps else some (some c)
        | none => noteLoop lower original ps
      else
        match byteDrop (byteLen p) original with
        | some rest =>
          let c := trimChars rest
          if c.isEmpty then noteLoop lower original ps else some (some c)
        | none => none
    else noteLoop lower original ps

/-- `parse_note_command` (voice/commands.rs lines 219–252). -/
def parse_note_command (lower original : List Char) : Option (Option (List Char)) :=
  noteLoop lower original notePrefixes

/-- The question-command prefix table (voice/commands.rs line 256). -/
def questionPrefixes : List (List Char) :=
  ["ask".data, "question".data, "what is".data, "what are".data,
   "how do".data, "how does".data, "why".data]

/-- `parse_question_command` (voice/commands.rs lines 255–274): first
matching prefix returns the original text (or the trimmed part after a colon
when one is present). -/
def parse_question_command (lower original : List Char) : Option (List Char) :=
  if questionPrefixes.any (fun p => startsWithC p lower) then
    if lower.contains ':' then
      match splitOnceColon original with
      | some pr => some (trimChars pr.2)
      | none => some original
    else some original
  else none

/-- The highlight colour table (voice/commands.rs lines 280–288). -/
def highlightColors : List (List Char) :=
  ["yellow".data, "green".data, "blue".data, "red".data,
   "purple".data, "orange".data, "pink".data]

/-- `parse_highlight_command` (voice/commands.rs lines 277–300). -/
def parse_highlight_command (lower : List Char) : Option (Option (List Char)) :=
  if containsSeq "highlight".data lower then
    match highlightColors.find? (fun name => containsSeq name lower) with
    | some color => some (some color)
    | none => some none
  else none

/-- `lower == phrase || lower.starts_with(phrase)` for one phrase table
(voice/commands.rs lines 333–355). -/
def phraseHit (lower : List Char) (phrases : List (List Char)) : Bool :=
  phrases.any fun p => lower == p || startsWithC p lower

/-- `parse_reading_command` (voice/commands.rs lines 303–369).  The
start/stop/repeat/skip tables match by equality or prefix; the back table by
equality only; then the explain special case. -/
def parse_reading_command (lower : List Char) : Option VoiceCommand :=
  if phraseHit lower ["read from here".data, "start reading".data, "read this".data,
      "read aloud".data, "read".data, "play".data] then
    some VoiceCommand.StartReading
  else if phraseHit lower ["stop reading".data, "stop".data, "pause".data,
      "pause reading".data, "quiet".data, "silence".data] then
    some VoiceCommand.StopReading
  else if phraseHit lower ["repeat".data, "say again".data, "again".data, "replay".data] then
    some VoiceCommand.Repeat
  else if phraseHit lower ["skip section".data, "skip to next".data,
      "next section".data, "skip".data] then
    some VoiceCommand.SkipSection
  else if ["go back".data, "back".data, "previous".data, "rewind".data].any
      (fun p => lower == p) then
    some VoiceCommand.GoBack
  else if lower == "explain this".data || lower == "explain".data ||
      startsWithC "explain this".data lower then
    some VoiceCommand.ExplainSelection
  else none

/-- The word-number table of `extract_number` (voice/commands.rs lines 538–549). -/
def wordNumbers : List (List Char × Nat) :=
  [("one".data, 1), ("two".data, 2), ("three".data, 3), ("four".data, 4),
   ("five".data, 5), ("six".data, 6), ("seven".data, 7), ("eight".data, 8),
   ("nine".data, 9), ("ten".data, 10)]

/-- `extract_number` (voice/commands.rs lines 530–558): all ASCII digits of
the text, parsed as `u32` (`parse::<u32>().ok()` fails on overflow); else the
first word-number whose name occurs in the text. -/
def extract_number (text : List Char) : Option Nat :=
  let digits := text.filter rustIsAsciiDigit
  if !digits.isEmpty then
    let v := digitsToNat digits
    if v < U32 then some v else none
  else
    ((wordNumbers.find? fun wn => containsSeq wn.1 text).map fun wn => wn.2)

/-- `parse_navigation_command` (voice/commands.rs lines 372–394). -/
def parse_navigation_command (lower : List Char) : Option VoiceCommand :=
  if lower == "next page".data || lower == "page down".data then
    some (VoiceCommand.NavigatePage PageDirection.Next)
  else if lower == "previous page".data || lower == "page up".data ||
      lower == "last page".data then
    some (VoiceCommand.NavigatePage PageDirection.Previous)
  else if startsWithC "go to page".data lower || startsWithC "page".data lower then
    match extract_number lower with
    | some num => some (VoiceCommand.GoToPage num)
    | none => none
  else none

/-- First suffix of the text starting with an ASCII digit (the position
where the regex `(\d+\.?\d*)` of `extract_float` first matches; the `\d` of
the regex crate also matches non-ASCII decimal digits, but those make the
subsequent `parse::<f32>` fail, so ASCII digits model the successful
executions). -/
def dropToDigit : List Char → Option (List Char)
  | [] => none
  | c :: t => if rustIsAsciiDigit c then some (c :: t) else dropToDigit t

/-- `extract_float` (voice/commands.rs lines 561–572): first match of
`(\d+\.?\d*)`, parsed as a float; modelled as the exact rational value. -/
def extract_float (text : List Char) : Option ℚ :=
  match dropToDigit text with
  | none => none
  | some rest =>
    let intDigits := rest.takeWhile rustIsAsciiDigit
    let rest2 := rest.dropWhile rustIsAsciiDigit
    match rest2 with
    | '.' :: r3 =>
      let fracDigits := r3.takeWhile rustIsAsciiDigit
      some ((digitsToNat intDigits : ℚ) +
        (digitsToNat fracDigits : ℚ) / (10 : ℚ) ^ fracDigits.length)
    | _ => some (digitsToNat intDigits)

/-- `parse_speed_command` (voice/commands.rs lines 397–423). -/
def parse_speed_command (lower : List Char) : Option VoiceCommand :=
  if phraseHit lower ["speed up".data, "faster".data, "increase speed".data,
      "quicker".data] then
    some (VoiceCommand.AdjustSpeed (1 / 4))
  else if phraseHit lower ["slow down".data, "slower".data, "decrease speed".data,
      "reduce speed".data] then
    some (VoiceCommand.AdjustSpeed (-(1 / 4)))
  else if startsWithC "set speed to".data lower || startsWithC "speed".data lower then
    match extract_float lower with
    | some speed => if 1 / 4 ≤ speed ∧ speed ≤ 3 then
        some (VoiceCommand.SetSpeed speed) else none
    | none => none
  else none

/-- `parse_summarize_command` (voice/commands.rs lines 426–442). -/
def parse_summarize_command (lower : List Char) : Option VoiceCommand :=
  if !containsSeq "summar".data lower then none
  else
    let scope :=
      if containsSeq "document".data lower || containsSeq "entire".data lower then
        SummarizeScope.Document
      else if containsSeq "section".data lower then SummarizeScope.Section
      else if containsSeq "page".data lower then SummarizeScope.Page
      else SummarizeScope.Selection
    some (VoiceCommand.Summarize scope)

/-- Rust `char::is_alphanumeric` (Unicode `Alphabetic` or numeric).
Modelled exactly on ASCII; non-ASCII scalars are approximated as
alphanumeric (no theorem below depends on the non-ASCII behaviour). -/
def rustIsAlphanumeric (c : Char) : Bool :=
  ('a' ≤ c && c ≤ 'z') || ('A' ≤ c && c ≤ 'Z') || ('0' ≤ c && c ≤ '9') ||
    0x80 ≤ c.val

/-- Rust `str::trim_matches(|c| !c.is_alphanumeric())`. -/
def trimNonAlnum (w : List Char) : List Char :=
  ((w.dropWhile fun c => !rustIsAlphanumeric c).reverse.dropWhile
    fun c => !rustIsAlphanumeric c).reverse

/-- `parse_define_command` (voice/commands.rs lines 445–458): last
whitespace-separated word of the original, trimmed of non-alphanumerics,
kept when non-empty. -/
def parse_define_command (lower original : List Char) : Option (List Char) :=
  if startsWithC "define".data lower || startsWithC "what does".data lower ||
      startsWithC "what is".data lower then
    match (splitWhitespaceChars original).getLast? with
    | some w =>
      let w := trimNonAlnum w
      if w.isEmpty then none else some w
    | none => none
  else none

/-- The language table of `parse_translate_command`
(voice/commands.rs lines 466–477). -/
def translateLanguages : List (List Char × List Char) :=
  [("spanish".data, "es".data), ("french".data, "fr".data),
   ("german".data, "de".data), ("chinese".data, "zh".data),
   ("japanese".data, "ja".data), ("korean".data, "ko".data),
   ("italian".data, "it".data), ("portuguese".data, "pt".data),
   ("russian".data, "ru".data), ("arabic".data, "ar".data)]

/-- Suffix of the haystack after the first occurrence of the needle
(Rust `lower.find(" to ")` followed by `lower[pos + 4..]`; the needle is
ASCII, so the byte slice is the character suffix after the match). -/
def afterFirstSeq (needle : List Char) : List Char → Option (List Char)
  | [] => none
  | c :: t =>
    if startsWithC needle (c :: t) then some ((c :: t).drop needle.length)
    else afterFirstSeq needle t

/-- `parse_translate_command` (voice/commands.rs lines 461–494). -/
def parse_translate_command (lower : List Char) : Option (List Char) :=
  if !containsSeq "translate".data lower then none
  else
    match translateLanguages.find? (fun ln => containsSeq ln.1 lower) with
    | some ln => some ln.2
    | none =>
      match afterFirstSeq " to ".data lower with
      | some rest =>
        let lang := trimChars rest
        if lang.isEmpty then none else some lang
      | none => none

/-- The search-command prefix table (voice/commands.rs line 498). -/
def searchPrefixes : List (List Char) :=
  ["search for".data, "search".data, "find".data, "look for".data]

/-- The loop of `parse_search_command` (voice/commands.rs lines 500–507),
with the same panic convention as `noteLoop` for `original[prefix.len()..]`. -/
def searchLoop (lower original : List Char) : List (List Char) → Option (Option (List Char))
  | [] => some none
  | p :: ps =>
    if startsWithC p lower then
      match byteDrop (byteLen p) original with
      | some rest =>
        let q := trimChars rest
        if q.isEmpty then searchLoop lower original ps else some (some q)
      | none => none
    else searchLoop lower original ps

/-- `parse_search_command` (voice/commands.rs lines 497–510). -/
def parse_search_command (lower original : List Char) : Option (Option (List Char)) :=
  searchLoop lower original searchPrefixes

/-- `parse_zoom_command` (voice/commands.rs lines 513–527). -/
def parse_zoom_command (lower : List Char) : Option VoiceCommand :=
  if containsSeq "zoom in".data lower || lower == "bigger".data ||
      lower == "larger".data then
    some (VoiceCommand.Zoom ZoomDirection.In)
  else if containsSeq "zoom out".data lower || lower == "smaller".data then
    some (VoiceCommand.Zoom ZoomDirection.Out)
  else none

/-- `VoiceCommandParser::parse` (voice/commands.rs lines 144–216): trim,
lowercase, then the ordered rule cascade; `none` marks the (never occurring)
panicking executions of the note/search byte slices. -/
def parse (input : List Char) : Option VoiceCommand :=
  let text := trimChars input
  let lower := rustToLower text
  match parse_note_command lower text with
  | none => none
  | some (some content) => some (VoiceCommand.NoteDown content)
  | some none =>
  match parse_question_command lower text with
  | some question => some (VoiceCommand.AskQuestion question)
  | none =>
  match parse_highlight_command lower with
  | some color => some (VoiceCommand.Highlight color)
  | none =>
  match parse_reading_command lower with
  | some cmd => some cmd
  | none =>
  match parse_navigation_command lower with
  | some cmd => some cmd
  | none =>
  match parse_speed_command lower with
  | some cmd => some cmd
  | none =>
  match parse_summarize_command lower with
  | some cmd => some cmd
  | none =>
  match parse_define_command lower text with
  | some word => some (VoiceCommand.Define word)
  | none =>
  match parse_translate_command lower with
  | some language => some (VoiceCommand.Translate language)
  | none =>
  match parse_search_command lower text with
  | none => none
  | some (some query) => some (VoiceCommand.Search query)
  | some none =>
  match parse_zoom_command lower with
  | some cmd => some cmd
  | none =>
  if endsWithQmark text then some (VoiceCommand.AskQuestion text)
  else some (VoiceCommand.FreeText text)

/-! ### Provider configuration (src/src-tauri/src/voice/providers/mod.rs)
and `VoiceConfig` (src/src-tauri/src/voice/mod.rs) -/

/-- `WhisperModel` (voice/mod.rs). -/
inductive WhisperModel where
  | Tiny
  | Base
  | Small
  | Medium
  | Large
deriving DecidableEq

/-- `PollyEngine` (voice/providers/mod.rs). -/
inductive PollyEngine where
  | Standard
  | Neural
  | Generative
deriving DecidableEq

/-- `STTProvider` (voice/providers/mod.rs). -/
inductive STTProvider where
  | WhisperLocal (model_path : String) (model_size : WhisperModel)
  | Vosk (model_path : String)
  | OpenAIWhisper (api_key : String)
  | AWSTranscribe (region access_key_id secret_access_key : String)
  | GoogleSpeech (credentials_path project_id : String)
  | AzureSpeech (subscription_key region : String)
  | Deepgram (api_key model : String)
  | AssemblyAI (api_key : String)
deriving DecidableEq

/-- `TTSProvider` (voice/providers/mod.rs). -/
inductive TTSProvider where
  | PiperLocal (model_path : String)
  | CoquiLocal (model_name : String)
  | ESpeakNG (voice : String)
  | OpenAITTS (api_key voice model : String)
  | AWSPolly (region access_key_id secret_access_key voice_id : String)
      (engine : PollyEngine)
  | GoogleTTS (credentials_path voice_name : String) (speaking_rate : ℚ)
  | AzureTTS (subscription_key region voice_name : String)
  | ElevenLabs (api_key voice_id : String) (stability clarity : ℚ)
deriving DecidableEq

/-- `VoiceConfig` (voice/mod.rs). -/
structure VoiceConfig where
  stt_provider : STTProvider
  tts_provider : TTSProvider
  voice_id : String
  language : String
  reading_speed : ℚ
  wake_word_enabled : Bool
  wake_word : String
  auto_punctuation : Bool
  noise_suppression : Bool
  continuous_listening : Bool
deriving DecidableEq

/-- `VoiceConfig::default` (voice/mod.rs lines 50–70). -/
def defaultVoiceConfig : VoiceConfig where
  stt_provider := STTProvider.WhisperLocal "voice_models/whisper/ggml-base.bin" WhisperModel.Base
  tts_provider := TTSProvider.PiperLocal "voice_models/piper/en_US-lessac-medium.onnx"
  voice_id := "default"
  language := "en-US"
  reading_speed := 1
  wake_word_enabled := false
  wake_word := "Hey IntelliDoc"
  auto_punctuation := true
  noise_suppression := true
  continuous_listening := false

/-! ### Command → action mapping (src/src-tauri/src/commands/voice.rs) -/

/-- `VoiceAction` (voice/mod.rs). -/
inductive VoiceAction where
  | AddAnnotation (position : ReadingPosition) (content : List Char)
      (color : Option (List Char))
  | AddHighlight (position : ReadingPosition) (color : List Char)
  | ScrollTo (position : ReadingPosition)
  | ShowLLMResponse (response : String)
  | StartReading (position : ReadingPosition)
  | StopReading
  | AdjustSpeed (speed : ℚ)
deriving DecidableEq

/-- `VoiceResponse` (voice/mod.rs). -/
structure VoiceResponse where
  text : String
  should_speak : Bool
  action : Option VoiceAction
deriving DecidableEq

/-- `ReadingPosition::default()`: all-zero / empty fields. -/
def defaultPosition : ReadingPosition where
  document_id := ""
  page := 0
  paragraph_id := ""
  word_index := 0
  character_offset := 0
  timestamp_ms := 0

/-- Rust `{:?}` rendering of `SummarizeScope` (derived `Debug`). -/
def scopeDebugStr : SummarizeScope → String
  | SummarizeScope.Selection => "Selection"
  | SummarizeScope.Page => "Page"
  | SummarizeScope.Section => "Section"
  | SummarizeScope.Document => "Document"

/-- `process_voice_command` (commands/voice.rs lines 400–536).  The shared
`VoiceConfig` behind the `RwLock` is threaded explicitly: the function
returns the updated config together with the `VoiceResponse`.  The `u32`
page increment of `NavigatePage` wraps modulo `2 ^ 32`
(`saturating_sub(1).max(1)` is `Nat` subtraction followed by `max 1`). -/
def process_voice_command (cfg : VoiceConfig) (command : VoiceCommand)
    (current_position : Option ReadingPosition) : VoiceConfig × VoiceResponse :=
  match command with
  | VoiceCommand.NoteDown content =>
    let position := current_position.getD defaultPosition
    (cfg, { text := "Added note: " ++ String.mk content, should_speak := true,
            action := some ( VoiceAction.AddAnnotation position content
              (some "yellow".data)) })
  | VoiceCommand.Highlight color =>
    let position := current_position.getD defaultPosition
    (cfg, { text := "Highlighted", should_speak := false,
            action := some (VoiceAction.AddHighlight position
              (color.getD "yellow".data)) })
  | VoiceCommand.StartReading =>
    let position := current_position.getD defaultPosition
    (cfg, { text := "Starting to read", should_speak := false,
            action := some (VoiceAction.StartReading position) })
  | VoiceCommand.StopReading =>
    (cfg, { text := "Stopped reading", should_speak := false,
            action := some VoiceAction.StopReading })
  | VoiceCommand.AdjustSpeed delta =>
    let ns := rustClamp (cfg.reading_speed + delta) (1 / 4) 3
    ({ cfg with reading_speed := ns },
     { text := "Speed set to " ++ fmt1 ns ++ "x", should_speak := true,
       action := some (VoiceAction.AdjustSpeed ns) })
  | VoiceCommand.SetSpeed speed =>
    let ns := rustClamp speed (1 / 4) 3
    ({ cfg with reading_speed := ns },
     { text := "Speed set to " ++ fmt1 ns ++ "x", should_speak := true,
       action := some (VoiceAction.AdjustSpeed ns) })
  | VoiceCommand.AskQuestion question =>
    (cfg, { text := "Processing question: " ++ String.mk question,
            should_speak := false, action := none })
  | VoiceCommand.ExplainSelection =>
    (cfg, { text := "Explaining selection...", should_speak := false,
            action := none })
  | VoiceCommand.Summarize scope =>
    (cfg, { text := "Summarizing " ++ scopeDebugStr scope ++ "...",
            should_speak := false, action := none })
  | VoiceCommand.GoToPage page =>
    let position := { current_position.getD defaultPosition with page := page }
    (cfg, { text := "Going to page " ++ toString page, should_speak := true,
            action := some (VoiceAction.ScrollTo position) })
  | VoiceCommand.NavigatePage direction =>
    let pos0 := current_position.getD defaultPosition
    let position :=
      match direction with
      | PageDirection.Next => { pos0 with page := (pos0.page + 1) % U32 }
      | PageDirection.Previous => { pos0 with page := max (pos0.page - 1) 1 }
    (cfg, { text := "Page " ++ toString position.page, should_speak := false,
            action := some (VoiceAction.ScrollTo position) })
  | VoiceCommand.Repeat =>
    (cfg, { text := "Repeating...", should_speak := false, action := none })
  | VoiceCommand.FreeText text =>
    (cfg, { text := String.mk text, should_speak := false, action := none })
  | _ =>
    (cfg, { text := "Command not recognized", should_speak := true,
            action := none })

/-! ### Voice manager (src/src-tauri/src/voice/mod.rs) -/

/-- `VoiceManager` (voice/mod.rs lines 261–278).  The provider boxes are
modelled by their presence (`sttInit` / `ttsInit` for `stt.is_some()` /
`tts.is_some()`); the `Arc<RwLock<_>>` cells are plain fields, since every
claim below concerns a single manager.  The channel senders are not part
of any claimed behaviour and are omitted. -/
structure VoiceManager where
  config : VoiceConfig
  sttInit : Bool
  ttsInit : Bool
  state : VoiceState
  current_position : Option ReadingPosition
deriving DecidableEq

/-- `VoiceManager::new` (voice/mod.rs lines 282–295). -/
def VoiceManager.new (config : VoiceConfig) : VoiceManager where
  config := config
  sttInit := false
  ttsInit := false
  state := VoiceState.Idle
  current_position := none

/-- `VoiceManager::is_initialized` (voice/mod.rs lines 478–480). -/
def VoiceManager.is_initialized (m : VoiceManager) : Bool :=
  m.sttInit && m.ttsInit

/-- `VoiceManager::start_listening` (voice/mod.rs lines 315–328).  The
provider call `stt.start_listening()` is a parameter (`sttRes`); its receiver
payload is irrelevant to the claims and is `Unit`.  The function returns the
manager after the call together with the outcome: a `NotInitialized` failure
leaves the manager unchanged, the `InvalidState` failure happens before the
state is written, and a provider failure propagates after the state was
already set to `Listening` (exactly the source's control flow). -/
def VoiceManager.start_listening (m : VoiceManager)
    (sttRes : Except VoiceError Unit) : VoiceManager × Except VoiceError Unit :=
  if !m.sttInit then (m, Except.error VoiceError.NotInitialized)
  else if m.state ≠ VoiceState.Idle then
    (m, Except.error (VoiceError.InvalidState "Already active"))
  else
    ({ m with state := VoiceState.Listening }, sttRes)

/-- `VoiceManager::stop_listening` (voice/mod.rs lines 331–341): the provider
`stop_listening` call precedes the state reset, so a provider failure leaves
the state unchanged. -/
def VoiceManager.stop_listening (m : VoiceManager)
    (sttRes : Except VoiceError Unit) : VoiceManager × Except VoiceError Unit :=
  if !m.sttInit then (m, Except.error VoiceError.NotInitialized)
  else
    match sttRes with
    | Except.error e => (m, Except.error e)
    | Except.ok _ => ({ m with state := VoiceState.Idle }, Except.ok ())

/-- The position-update loop of the synchronizer task spawned by
`read_content` (voice/mod.rs lines 382–428): one `ReadingPosition` per word
timing, `word_index` counting up from 0 in a `u32` (wrapping modulo `2 ^ 32`),
`timestamp_ms` taken from the timing's `start_ms`.  This models the complete
uncancelled run in which every channel send succeeds; a cancelled or
send-failing run emits a prefix of this list. -/
def syncLoop (document_id : String) (page : Nat) (paragraph_id : String) :
    Nat → List WordTiming → List ReadingPosition
  | _, [] => []
  | word_index, timing :: rest =>
    { document_id := document_id, page := page, paragraph_id := paragraph_id,
      word_index := word_index, character_offset := 0,
      timestamp_ms := timing.start_ms } ::
      syncLoop document_id page paragraph_id ((word_index + 1) % U32) rest

/-- `VoiceManager::read_content` (voice/mod.rs lines 349–432).  The provider
calls `tts.get_word_timings` and `tts.synthesize_stream` are parameters; the
returned receiver is modelled by the full emission list of the synchronizer
task (`syncLoop`).  The source sets the state to `Reading` and stores the
start position before either provider call, with no check of the previous
state; provider failures therefore leave the state at `Reading`. -/
def VoiceManager.read_content (m : VoiceManager)
    (start_position : ReadingPosition)
    (timingsRes : Except VoiceError (List WordTiming))
    (streamRes : Except VoiceError Unit) :
    VoiceManager × Except VoiceError (List ReadingPosition) :=
  if !m.ttsInit then (m, Except.error VoiceError.NotInitialized)
  else
    let m1 := { m with state := VoiceState.Reading,
                       current_position := some start_position }
    match timingsRes with
    | Except.error e => (m1, Except.error e)
    | Except.ok word_timings =>
      match streamRes with
      | Except.error e => (m1, Except.error e)
      | Except.ok _ =>
        (m1, Except.ok (syncLoop start_position.document_id start_position.page
          start_position.paragraph_id 0 word_timings))

/-- `VoiceManager::stop_reading` (voice/mod.rs lines 435–445): `tts.stop()`
precedes the state reset. -/
def VoiceManager.stop_reading (m : VoiceManager)
    (ttsRes : Except VoiceError Unit) : VoiceManager × Except VoiceError Unit :=
  if !m.ttsInit then (m, Except.error VoiceError.NotInitialized)
  else
    match ttsRes with
    | Except.error e => (m, Except.error e)
    | Except.ok _ => ({ m with state := VoiceState.Idle }, Except.ok ())

/-- `VoiceManager::speak` (voice/mod.rs lines 448–464).  The state is set to
`Speaking` unconditionally — no check of the previous state — then
`tts.synthesize` and `audio::play_audio` run (parameters here); on success
the state returns to `Idle`, on failure it stays at `Speaking`. -/
def VoiceManager.speak (m : VoiceManager)
    (synthRes : Except VoiceError AudioData)
    (playRes : Except VoiceError Unit) : VoiceManager × Except VoiceError Unit :=
  if !m.ttsInit then (m, Except.error VoiceError.NotInitialized)
  else
    let m1 := { m with state := VoiceState.Speaking }
    match synthRes with
    | Except.error e => (m1, Except.error e)
    | Except.ok _ =>
      match playRes with
      | Except.error e => (m1, Except.error e)
      | Except.ok _ => ({ m1 with state := VoiceState.Idle }, Except.ok ())

/-- `VoiceManager::parse_command` (voice/mod.rs lines 344–346): pure
delegation to the parser. -/
def VoiceManager.parse_command (_m : VoiceManager) (text : List Char) :
    Option VoiceCommand :=
  parse text

/-- Default `WordTiming` used as the (never relevant) `List.getD` fallback in
indexed statements. -/
def dTiming : WordTiming := { word := [], start_ms := 0, end_ms := 0, confidence := 0 }

/-! ### Auxiliary predicates for the parser-safety claim -/

/-- Safety of one ASCII note/search prefix for the byte slice
`original[prefix.len()..]`: every character is ASCII, at most one `k` occurs
and only with at least two characters after it (the Kelvin sign U+212A is
the one scalar that lowercases to an ASCII character while occupying three
bytes), and the prefix does not end in `i` (U+0130 is the one scalar whose
lowercase starts with `i` but continues with a combining mark). -/
def sliceSafe : List Char → Bool
  | [] => true
  | c :: p =>
    if c == 'k' then
      (p.all fun d => decide (d.val < 0x80) && d != 'k') &&
        decide (2 ≤ p.length) && (p.getLast? != some 'i')
    else
      decide (c.val < 0x80) && (if p.isEmpty then c != 'i' else true) &&
        sliceSafe p

/-- Safety of a non-ASCII prefix: every character is non-ASCII and is not
one of the scalars some other character lowercases to (U+0307, ω, å) — such
characters occur in a lowercased string only where the original string has
them verbatim. -/
def selfSafeB (p : List Char) : Bool :=
  p.all fun c =>
    decide (0x80 ≤ c.val) && c != combiningDotAbove && c != smallOmega &&
      c != smallARing

/-- A prefix whose byte slice of the original string is always in bounds and
on a character boundary whenever the lowercased string starts with it. -/
def prefixSliceOk (p : List Char) : Bool := sliceSafe p || selfSafeB p

/-- The input matches none of the parser's rules: every matcher of the rule
cascade reports no match on the trimmed, lowercased input. -/
def RuleFree (s : List Char) : Prop :=
  parse_note_command (rustToLower (trimChars s)) (trimChars s) = some none ∧
  parse_question_command (rustToLower (trimChars s)) (trimChars s) = none ∧
  parse_highlight_command (rustToLower (trimChars s)) = none ∧
  parse_reading_command (rustToLower (trimChars s)) = none ∧
  parse_navigation_command (rustToLower (trimChars s)) = none ∧
  parse_speed_command (rustToLower (trimChars s)) = none ∧
  parse_summarize_command (rustToLower (trimChars s)) = none ∧
  parse_define_command (rustToLower (trimChars s)) (trimChars s) = none ∧
  parse_translate_command (rustToLower (trimChars s)) = none ∧
  parse_search_command (rustToLower (trimChars s)) (trimChars s) = some none ∧
  parse_zoom_command (rustToLower (trimChars s)) = none

/-! ## Theorems -/

/-- `roundHalfEven` is the identity on integers. -/
theorem roundHalfEven_intCast (m : ℤ) : roundHalfEven (m : ℚ) = m := by
  simp [roundHalfEven]

/-- `Int.log 2` is determined by any binade enclosure. -/
theorem int_log_two_eq (q : ℚ) (e : ℤ) (hq : 0 < q)
    (h1 : (2 : ℚ) ^ e ≤ q) (h2 : q < (2 : ℚ) ^ (e + 1)) : Int.log 2 q = e := by
  have hb : (1 : ℕ) < 2 := one_lt_two
  have ha : e ≤ Int.log 2 q := (Int.zpow_le_iff_le_log hb hq).mp (by exact_mod_cast h1)
  have hc : Int.log 2 q < e + 1 := (Int.lt_zpow_iff_log_lt hb hq).mp (by exact_mod_cast h2)
  omega

/-- Evaluation rule for `fl` at a positive normal-range value with no
overflow: supply the binade exponent `e` and the (already rounded)
result `r`. -/
theorem fl_eval (q r : ℚ) (e : ℤ) (hq : 0 < q)
    (h1 : (2 : ℚ) ^ e ≤ q) (h2 : q < (2 : ℚ) ^ (e + 1)) (he : -126 ≤ e)
    (hr : (roundHalfEven (q / 2 ^ (e - 23)) : ℚ) * 2 ^ (e - 23) = r)
    (hlt : r < 2 ^ 128) : fl q = r := by
  have habs : |q| = q := abs_of_pos hq
  have hlog : Int.log 2 q = e := int_log_two_eq q e hq h1 h2
  have hp : max (e - 23) (-149 : ℤ) = e - 23 := max_eq_left (by omega)
  simp only [fl, f32Inf]
  rw [if_neg (ne_of_gt hq), if_neg (not_lt.mpr hq.le), habs, hlog, hp, hr,
    if_neg (not_le.mpr hlt)]

/-- `fl` at zero. -/
theorem fl_zero : fl 0 = 0 := by simp [fl]

/-- `1 as f32` (exact). -/
theorem natToF32_one : natToF32 1 = 1 := by
  unfold natToF32
  rw [show ((1 : Nat) : ℚ) = 1 by norm_num]
  exact fl_eval 1 1 0 (by norm_num) (by norm_num) (by norm_num) (by norm_num)
    (by norm_num [roundHalfEven]) (by norm_num)

/-- `2 as f32` (exact). -/
theorem natToF32_two : natToF32 2 = 2 := by
  unfold natToF32
  rw [show ((2 : Nat) : ℚ) = 2 by norm_num]
  exact fl_eval 2 2 1 (by norm_num) (by norm_num) (by norm_num) (by norm_num)
    (by norm_num [roundHalfEven]) (by norm_num)

/-- `5 as f32` (exact). -/
theorem natToF32_five : natToF32 5 = 5 := by
  unfold natToF32
  rw [show ((5 : Nat) : ℚ) = 5 by norm_num]
  exact fl_eval 5 5 2 (by norm_num) (by norm_num) (by norm_num) (by norm_num)
    (by norm_num [roundHalfEven]) (by norm_num)

/-- `266 as f32` (exact). -/
theorem natToF32_266 : natToF32 266 = 266 := by
  unfold natToF32
  rw [show ((266 : Nat) : ℚ) = 266 by norm_num]
  exact fl_eval 266 266 8 (by norm_num) (by norm_num) (by norm_num) (by norm_num)
    (by norm_num [roundHalfEven]) (by norm_num)

/-- `400 as f32` (exact). -/
theorem natToF32_400 : natToF32 400 = 400 := by
  unfold natToF32
  rw [show ((400 : Nat) : ℚ) = 400 by norm_num]
  exact fl_eval 400 400 8 (by norm_num) (by norm_num) (by norm_num) (by norm_num)
    (by norm_num [roundHalfEven]) (by norm_num)

/-- `u64::MAX as f32` rounds up to `2 ^ 64` (nearest-even at 24 bits). -/
theorem natToF32_u64max : natToF32 (U64 - 1) = 2 ^ 64 := by
  unfold natToF32
  rw [show ((U64 - 1 : Nat) : ℚ) = 18446744073709551615 by norm_num [U64]]
  exact fl_eval 18446744073709551615 (2 ^ 64) 63 (by norm_num) (by norm_num)
    (by norm_num) (by norm_num) (by norm_num [roundHalfEven]) (by norm_num)

/-- `msPerWordNat` at rate 1: `2.5 * 1 = 2.5` and `1000 / 2.5 = 400`,
both exact in `f32`. -/
theorem msPerWordNat_one : msPerWordNat 1 = 400 := by
  have hm : fmul (5 / 2) 1 = 5 / 2 := by
    unfold fmul
    rw [mul_one]
    exact fl_eval (5 / 2) (5 / 2) 1 (by norm_num) (by norm_num) (by norm_num)
      (by norm_num) (by norm_num [roundHalfEven]) (by norm_num)
  have hd : fdiv 1000 (5 / 2) = 400 := by
    unfold fdiv
    rw [if_neg (by norm_num : ¬ (5 / 2 : ℚ) = 0),
      show (1000 : ℚ) / (5 / 2) = 400 by norm_num]
    exact fl_eval 400 400 8 (by norm_num) (by norm_num) (by norm_num)
      (by norm_num) (by norm_num [roundHalfEven]) (by norm_num)
  unfold msPerWordNat
  rw [hm, hd]
  unfold f32CastNat
  rw [if_neg (by norm_num [U64] : ¬ ((U64 : Nat) : ℚ) ≤ 400)]
  norm_num
  rfl

/-- `msPerWordNat` at rate 0: `2.5 * 0 = 0`, `1000 / 0 = +inf`, and the
cast saturates to `u64::MAX`. -/
theorem msPerWordNat_zero : msPerWordNat 0 = U64 - 1 := by
  have hm : fmul (5 / 2) 0 = 0 := by
    unfold fmul
    rw [mul_zero]
    exact fl_zero
  unfold msPerWordNat
  rw [hm]
  unfold fdiv
  rw [if_pos rfl, if_neg (by norm_num : ¬ (1000 : ℚ) < 0),
    if_neg (by norm_num : ¬ (1000 : ℚ) = 0)]
  unfold f32CastNat f32Inf
  rw [if_pos (by norm_num [U64] : ((U64 : Nat) : ℚ) ≤ 2 ^ 128)]

/-- `msPerWordNat` at rate 1.5: `2.5 * 1.5 = 3.75` is exact,
`1000 / 3.75 = 800/3` rounds to `8738133 / 2 ^ 15 ≈ 266.66666`, and the
cast truncates to 266. -/
theorem msPerWordNat_three_halves : msPerWordNat (3 / 2) = 266 := by
  have hm : fmul (5 / 2) (3 / 2) = 15 / 4 := by
    unfold fmul
    rw [show (5 / 2 : ℚ) * (3 / 2) = 15 / 4 by norm_num]
    exact fl_eval (15 / 4) (15 / 4) 1 (by norm_num) (by norm_num) (by norm_num)
      (by norm_num) (by norm_num [roundHalfEven]) (by norm_num)
  have hd : fdiv 1000 (15 / 4) = 8738133 / 32768 := by
    unfold fdiv
    rw [if_neg (by norm_num : ¬ (15 / 4 : ℚ) = 0),
      show (1000 : ℚ) / (15 / 4) = 800 / 3 by norm_num]
    exact fl_eval (800 / 3) (8738133 / 32768) 8 (by norm_num) (by norm_num)
      (by norm_num) (by norm_num) (by norm_num [roundHalfEven]) (by norm_num)
  unfold msPerWordNat
  rw [hm, hd]
  unfold f32CastNat
  rw [if_neg (by norm_num [U64] : ¬ ((U64 : Nat) : ℚ) ≤ 8738133 / 32768)]
  norm_num
  rfl

/-- Duration of a 2-byte word at 400 ms/word: `2 / 5` rounds to
`13421773 / 2 ^ 25 < 0.5`, so the `max` picks `0.5`, and `400 * 0.5 = 200`
is exact. -/
theorem wordDur_400_2 : wordDurationNat 400 2 = 200 := by
  have h3 : fdiv 2 5 = 13421773 / 33554432 := by
    unfold fdiv
    rw [if_neg (by norm_num : ¬ (5 : ℚ) = 0),
      show (2 : ℚ) / 5 = 2 / 5 by norm_num]
    exact fl_eval (2 / 5) (13421773 / 33554432) (-2) (by norm_num) (by norm_num)
      (by norm_num) (by norm_num) (by norm_num [roundHalfEven]) (by norm_num)
  have h4 : max ((13421773 : ℚ) / 33554432) (1 / 2) = 1 / 2 :=
    max_eq_right (by norm_num)
  have h5 : fmul 400 (1 / 2) = 200 := by
    unfold fmul
    rw [show (400 : ℚ) * (1 / 2) = 200 by norm_num]
    exact fl_eval 200 200 7 (by norm_num) (by norm_num) (by norm_num)
      (by norm_num) (by norm_num [roundHalfEven]) (by norm_num)
  unfold wordDurationNat
  rw [natToF32_400, natToF32_two, h3, h4, h5]
  unfold f32CastNat
  rw [if_neg (by norm_num [U64] : ¬ ((U64 : Nat) : ℚ) ≤ 200)]
  norm_num
  rfl

/-- Duration of a 5-byte word at 400 ms/word: `5 / 5 = 1` and `400 * 1`
are exact. -/
theorem wordDur_400_5 : wordDurationNat 400 5 = 400 := by
  have h3 : fdiv 5 5 = 1 := by
    unfold fdiv
    rw [if_neg (by norm_num : ¬ (5 : ℚ) = 0), show (5 : ℚ) / 5 = 1 by norm_num]
    exact fl_eval 1 1 0 (by norm_num) (by norm_num) (by norm_num)
      (by norm_num) (by norm_num [roundHalfEven]) (by norm_num)
  have h4 : max (1 : ℚ) (1 / 2) = 1 := max_eq_left (by norm_num)
  have h5 : fmul 400 1 = 400 := by
    unfold fmul
    rw [mul_one]
    exact fl_eval 400 400 8 (by norm_num) (by norm_num) (by norm_num)
      (by norm_num) (by norm_num [roundHalfEven]) (by norm_num)
  unfold wordDurationNat
  rw [natToF32_400, natToF32_five, h3, h4, h5]
  unfold f32CastNat
  rw [if_neg (by norm_num [U64] : ¬ ((U64 : Nat) : ℚ) ≤ 400)]
  norm_num
  rfl

/-- Duration of a 5-byte word at 266 ms/word: all operations exact,
duration 266. -/
theorem wordDur_266_5 : wordDurationNat 266 5 = 266 := by
  have h3 : fdiv 5 5 = 1 := by
    unfold fdiv
    rw [if_neg (by norm_num : ¬ (5 : ℚ) = 0), show (5 : ℚ) / 5 = 1 by norm_num]
    exact fl_eval 1 1 0 (by norm_num) (by norm_num) (by norm_num)
      (by norm_num) (by norm_num [roundHalfEven]) (by norm_num)
  have h4 : max (1 : ℚ) (1 / 2) = 1 := max_eq_left (by norm_num)
  have h5 : fmul 266 1 = 266 := by
    unfold fmul
    rw [mul_one]
    exact fl_eval 266 266 8 (by norm_num) (by norm_num) (by norm_num)
      (by norm_num) (by norm_num [roundHalfEven]) (by norm_num)
  unfold wordDurationNat
  rw [natToF32_266, natToF32_five, h3, h4, h5]
  unfold f32CastNat
  rw [if_neg (by norm_num [U64] : ¬ ((U64 : Nat) : ℚ) ≤ 266)]
  norm_num
  rfl

/-- Duration of a 1-byte word at `ms_per_word = u64::MAX`: the cast to
`f32` rounds to `2 ^ 64`, `1 / 5` rounds below `0.5` so the `max` picks
`0.5`, the product `2 ^ 63` is exact, and the cast returns `2 ^ 63`. -/
theorem wordDur_max_1 :
    wordDurationNat 18446744073709551615 1 = 9223372036854775808 := by
  have h3 : fdiv 1 5 = 13421773 / 67108864 := by
    unfold fdiv
    rw [if_neg (by norm_num : ¬ (5 : ℚ) = 0),
      show (1 : ℚ) / 5 = 1 / 5 by norm_num]
    exact fl_eval (1 / 5) (13421773 / 67108864) (-3) (by norm_num) (by norm_num)
      (by norm_num) (by norm_num) (by norm_num [roundHalfEven]) (by norm_num)
  have h4 : max ((13421773 : ℚ) / 67108864) (1 / 2) = 1 / 2 :=
    max_eq_right (by norm_num)
  have h5 : fmul (2 ^ 64) (1 / 2) = 9223372036854775808 := by
    unfold fmul
    rw [show (2 ^ 64 : ℚ) * (1 / 2) = 9223372036854775808 by norm_num]
    exact fl_eval 9223372036854775808 9223372036854775808 63 (by norm_num)
      (by norm_num) (by norm_num) (by norm_num)
      (by norm_num [roundHalfEven]) (by norm_num)
  unfold wordDurationNat
  rw [show (18446744073709551615 : Nat) = U64 - 1 by norm_num [U64]]
  rw [natToF32_u64max, natToF32_one, h3, h4, h5]
  unfold f32CastNat
  rw [if_neg (by norm_num [U64] : ¬ ((U64 : Nat) : ℚ) ≤ 9223372036854775808)]
  norm_num
  rfl

/-- Claim C3: the command parser satisfies the spec's example parses —
`"summarize this page"` yields `Summarize` with scope `Page` (so neither a
navigation nor a reading command), `"go to page 5"` yields `GoToPage 5`,
`"next page"` yields `NavigatePage Next`, and `"What is entropy?"` yields
`AskQuestion` carrying the full text. -/
theorem parse_spec_examples :
    parse "summarize this page".data =
      some (VoiceCommand.Summarize SummarizeScope.Page) ∧
    parse "go to page 5".data = some (VoiceCommand.GoToPage 5) ∧
    parse "next page".data = some (VoiceCommand.NavigatePage PageDirection.Next) ∧
    parse "What is entropy?".data =
      some (VoiceCommand.AskQuestion "What is entropy?".data) := by
  refine ⟨?_, ?_, ?_, ?_⟩ <;> decide

/-- Claim C7: `PiperTTS::set_rate` stores a speaking rate inside
`[0.25, 3.0]`; in-range rates are stored unchanged and out-of-range rates
are clamped to the nearest bound. -/
theorem set_rate_clamps (p : PiperTTS) (rate : ℚ) :
    1 / 4 ≤ (p.set_rate rate).speaking_rate ∧
    (p.set_rate rate).speaking_rate ≤ 3 ∧
    (1 / 4 ≤ rate → rate ≤ 3 → (p.set_rate rate).speaking_rate = rate) ∧
    (rate < 1 / 4 → (p.set_rate rate).speaking_rate = 1 / 4) ∧
    (3 < rate → (p.set_rate rate).speaking_rate = 3) := by
  simp only [PiperTTS.set_rate, rustClamp]
  split_ifs with h1 h2
  all_goals try rw [not_lt] at h1
  all_goals try rw [not_lt] at h2
  all_goals refine ⟨?_, ?_, ?_, ?_, ?_⟩ <;> intros <;>
    first | rfl | linarith

/-- Witness for C7 at the concrete out-of-range rate 5: the stored rate is
the upper bound 3. -/
theorem set_rate_clamps_witness :
    ((PiperTTS.mk "" "" 1 false none).set_rate 5).speaking_rate = 3 :=
  (set_rate_clamps (PiperTTS.mk "" "" 1 false none) 5).2.2.2.2 (by norm_num)

/-- Length of the estimation loop output: one timing per word. -/
theorem estimateLoop_length (mpw : Nat) (ws : List (List Char)) :
    ∀ cur, (estimateLoop mpw cur ws).length = ws.length := by
  induction ws with
  | nil => intro cur; rfl
  | cons w ws ih => intro cur; simp [estimateLoop, ih]

/-- Indexed description of the estimation loop: the `k`-th timing carries the
`k`-th word, and its `end_ms` is its `start_ms` plus that word's duration,
modulo `2 ^ 64`. -/
theorem estimateLoop_getD (mpw : Nat) (ws : List (List Char)) :
    ∀ cur k, k < ws.length →
      ((estimateLoop mpw cur ws).getD k dTiming).word = ws.getD k [] ∧
      ((estimateLoop mpw cur ws).getD k dTiming).end_ms =
        (((estimateLoop mpw cur ws).getD k dTiming).start_ms +
          wordDurationNat mpw (byteLen (ws.getD k []))) % U64 := by
  induction ws with
  | nil => intro cur k h; simp at h
  | cons w ws ih =>
    intro cur k h
    cases k with
    | zero => simp [estimateLoop]
    | succ k =>
      simpa [estimateLoop] using ih ((cur + wordDurationNat mpw (byteLen w)) % U64)
        k (by simpa using h)

/-- The first timing starts at the accumulator value. -/
theorem estimateLoop_first (mpw cur : Nat) (w : List Char) (ws : List (List Char)) :
    ((estimateLoop mpw cur (w :: ws)).getD 0 dTiming).start_ms = cur := rfl

/-- Gap-freeness of the estimation loop: each timing starts where the
previous one ended (both computed with the same wrapping addition). -/
theorem estimateLoop_gap (mpw : Nat) (ws : List (List Char)) :
    ∀ cur k, k + 1 < ws.length →
      ((estimateLoop mpw cur ws).getD (k + 1) dTiming).start_ms =
      ((estimateLoop mpw cur ws).getD k dTiming).end_ms := by
  induction ws with
  | nil => intro cur k h; simp at h
  | cons w ws ih =>
    intro cur k h
    cases k with
    | zero =>
      cases ws with
      | nil => simp at h
      | cons w2 ws2 => simp [estimateLoop, estimateLoop_first]
    | succ k =>
      simpa [estimateLoop] using ih ((cur + wordDurationNat mpw (byteLen w)) % U64)
        k (by simpa using h)

/-- Monotonicity of the start times while the `u64` accumulator does not
overflow. -/
theorem estimateLoop_mono (mpw : Nat) (ws : List (List Char)) :
    ∀ cur, cur + totalDuration mpw ws < U64 →
      ∀ k, k + 1 < ws.length →
        ((estimateLoop mpw cur ws).getD k dTiming).start_ms ≤
        ((estimateLoop mpw cur ws).getD (k + 1) dTiming).start_ms := by
  induction ws with
  | nil => intro cur _ k h; simp at h
  | cons w ws ih =>
    intro cur hb k hk
    have hsum : totalDuration mpw (w :: ws) =
        wordDurationNat mpw (byteLen w) + totalDuration mpw ws := by
      simp [totalDuration]
    have hd : (cur + wordDurationNat mpw (byteLen w)) % U64 =
        cur + wordDurationNat mpw (byteLen w) :=
      Nat.mod_eq_of_lt (by omega)
    cases k with
    | zero =>
      cases ws with
      | nil => simp at hk
      | cons w2 ws2 =>
        have : ((estimateLoop mpw cur (w :: w2 :: ws2)).getD 1 dTiming).start_ms =
            (cur + wordDurationNat mpw (byteLen w)) % U64 := by
          simp [estimateLoop, estimateLoop_first]
        rw [this, estimateLoop_first, hd]
        omega
    | succ k =>
      have hb' : (cur + wordDurationNat mpw (byteLen w)) % U64 +
          totalDuration mpw ws < U64 := by rw [hd]; omega
      simpa [estimateLoop] using ih ((cur + wordDurationNat mpw (byteLen w)) % U64)
        hb' k (by simpa using hk)

/-- Claim C4 amended: for every text and rate, `estimate_word_timings`
returns one timing per whitespace-separated word, the first timing starts at
0, and each timing starts exactly where the previous one ended; the start
times are non-decreasing whenever the summed durations stay below `2 ^ 64`
(no overflow of the `u64` accumulator — true in particular for every rate in
the valid range and every realistically sized text).  The unamended
monotonicity-for-every-rate part fails by `u64` wrap-around at rate 0, see
the counterexample. -/
theorem estimate_word_timings_shape (text : List Char) (rate : ℚ) :
    (estimate_word_timings text rate).length = (splitWhitespaceChars text).length ∧
    (0 < (estimate_word_timings text rate).length →
      ((estimate_word_timings text rate).getD 0 dTiming).start_ms = 0) ∧
    (∀ k, k + 1 < (estimate_word_timings text rate).length →
      ((estimate_word_timings text rate).getD (k + 1) dTiming).start_ms =
        ((estimate_word_timings text rate).getD k dTiming).end_ms) ∧
    (totalDuration (msPerWordNat rate) (splitWhitespaceChars text) < U64 →
      ∀ k, k + 1 < (estimate_word_timings text rate).length →
        ((estimate_word_timings text rate).getD k dTiming).start_ms ≤
          ((estimate_word_timings text rate).getD (k + 1) dTiming).start_ms) := by
  unfold estimate_word_timings
  have hlen := estimateLoop_length (msPerWordNat rate) (splitWhitespaceChars text) 0
  refine ⟨hlen, ?_, ?_, ?_⟩
  · intro h
    rw [hlen] at h
    cases hsw : splitWhitespaceChars text with
    | nil => rw [hsw] at h; simp at h
    | cons w ws => exact estimateLoop_first _ _ _ _
  · intro k hk
    rw [hlen] at hk
    exact estimateLoop_gap _ _ 0 k hk
  · intro hb k hk
    rw [hlen] at hk
    exact estimateLoop_mono _ _ 0 (by simpa using hb) k hk

/-- Claim C4 counterexample: at speaking rate 0 (`1000.0 / 0.0 = +inf`
casts to `u64::MAX`, which as an `f32` rounds to `2 ^ 64`, so each one-byte
word gets duration `2 ^ 63`) the text `"a b c d"` produces start times
`0, 2^63, 0, 2^63` — the third start time is smaller than the second, so
the start times are not non-decreasing for every rate. -/
theorem estimate_monotone_cex :
    ((estimate_word_timings "a b c d".data 0).getD 2 dTiming).start_ms <
      ((estimate_word_timings "a b c d".data 0).getD 1 dTiming).start_ms := by
  have hsw : splitWhitespaceChars "a b c d".data = [['a'], ['b'], ['c'], ['d']] := by
    decide
  have hba : byteLen ['a'] = 1 := by decide
  have hbb : byteLen ['b'] = 1 := by decide
  have hbc : byteLen ['c'] = 1 := by decide
  unfold estimate_word_timings
  rw [hsw, msPerWordNat_zero, show U64 - 1 = 18446744073709551615 by norm_num [U64]]
  simp only [estimateLoop, hba, hbb, hbc, wordDur_max_1]
  simp only [List.getD_cons_succ, List.getD_cons_zero]
  norm_num [U64]

/-- Witness for C4 at text `"hi there"`, rate 1 (no overflow): the second
start time is at least the first. -/
theorem estimate_word_timings_shape_witness :
    ((estimate_word_timings "hi there".data 1).getD 0 dTiming).start_ms ≤
      ((estimate_word_timings "hi there".data 1).getD 1 dTiming).start_ms := by
  apply (estimate_word_timings_shape "hi there".data 1).2.2.2
  · have hsw : splitWhitespaceChars "hi there".data =
        [['h', 'i'], ['t', 'h', 'e', 'r', 'e']] := by decide
    have hb2 : byteLen ['h', 'i'] = 2 := by decide
    have hb5 : byteLen ['t', 'h', 'e', 'r', 'e'] = 5 := by decide
    rw [hsw, msPerWordNat_one]
    simp [totalDuration, hb2, hb5, wordDur_400_2, wordDur_400_5, U64]
  · unfold estimate_word_timings
    rw [estimateLoop_length]
    decide

/-- Claim C5 amended: the duration of every word is the binary32
computation the source performs on the word's UTF-8 byte length — `end_ms`
is `start_ms` plus `(ms_per_word as f32 * (len as f32 / 5.0).max(0.5)) as
u64` with `len = word.len()` in bytes and
`ms_per_word = (1000.0 / (2.5 * rate)) as u64` (every arithmetic operation
rounded to binary32, the integer casts truncating and saturating), modulo
the `u64` wrap of the accumulator — rather than the exact real-valued
product `(1000 / (2.5 * rate)) * max(len/5, 1/2)` of the unamended claim,
which the truncations falsify (see the counterexample). -/
theorem word_duration_formula (text : List Char) (rate : ℚ) (k : Nat)
    (hk : k < (estimate_word_timings text rate).length) :
    ((estimate_word_timings text rate).getD k dTiming).end_ms =
      (((estimate_word_timings text rate).getD k dTiming).start_ms +
        f32CastNat (fmul (natToF32 (msPerWordNat rate))
          (max (fdiv (natToF32 (byteLen ((splitWhitespaceChars text).getD k [])))
            5) (1 / 2)))) % U64 := by
  unfold estimate_word_timings at hk ⊢
  rw [estimateLoop_length] at hk
  have h := estimateLoop_getD (msPerWordNat rate) (splitWhitespaceChars text) 0 k hk
  rw [h.2]
  rfl

/-- Claim C5 counterexample: at rate 1.5 the word `"hello"` gets duration
266 ms (`(1000.0 / 3.75) as u64 = 266`, times `max(5/5, 0.5) = 1`), not
the exact `(1000 / (2.5 × 1.5)) × max(0.5, 5/5) = 800/3 ≈ 266.67` ms the
claim states. -/
theorem word_duration_formula_cex :
    (((estimate_word_timings "hello".data (3 / 2)).getD 0 dTiming).end_ms -
        ((estimate_word_timings "hello".data (3 / 2)).getD 0 dTiming).start_ms : ℚ) ≠
      1000 / (5 / 2 * (3 / 2)) * max ((5 : ℚ) / 5) (1 / 2) := by
  have hsw : splitWhitespaceChars "hello".data = [['h', 'e', 'l', 'l', 'o']] := by
    decide
  have hb : byteLen ['h', 'e', 'l', 'l', 'o'] = 5 := by decide
  unfold estimate_word_timings
  rw [hsw, msPerWordNat_three_halves]
  simp [estimateLoop, hb, wordDur_266_5, U64]
  norm_num

/-- Witness for C5 at text `"hi there"`, rate 1, word 0. -/
theorem word_duration_formula_witness :
    ((estimate_word_timings "hi there".data 1).getD 0 dTiming).end_ms =
      (((estimate_word_timings "hi there".data 1).getD 0 dTiming).start_ms +
        f32CastNat (fmul (natToF32 (msPerWordNat 1))
          (max (fdiv (natToF32
              (byteLen ((splitWhitespaceChars "hi there".data).getD 0 [])))
            5) (1 / 2)))) % U64 :=
  word_duration_formula "hi there".data 1 0 (by
    unfold estimate_word_timings
    rw [estimateLoop_length]
    decide)

/-- Claim C8: processing `AdjustSpeed {delta}` / `SetSpeed {speed}` stores
the requested value (previous speed plus delta, or the absolute speed)
clamped to `[0.25, 3.0]` in the shared config's `reading_speed`, and the
returned response carries that resulting absolute speed in its
`AdjustSpeed` action and (rendered to one decimal) in its text. -/
theorem process_speed_commands (cfg : VoiceConfig) (delta speed : ℚ)
    (pos : Option ReadingPosition) :
    (let out := process_voice_command cfg (VoiceCommand.AdjustSpeed delta) pos
     (1 / 4 ≤ out.1.reading_speed ∧ out.1.reading_speed ≤ 3) ∧
     (1 / 4 ≤ cfg.reading_speed + delta → cfg.reading_speed + delta ≤ 3 →
       out.1.reading_speed = cfg.reading_speed + delta) ∧
     (cfg.reading_speed + delta < 1 / 4 → out.1.reading_speed = 1 / 4) ∧
     (3 < cfg.reading_speed + delta → out.1.reading_speed = 3) ∧
     out.2.action = some (VoiceAction.AdjustSpeed out.1.reading_speed) ∧
     out.2.should_speak = true ∧
     out.2.text = "Speed set to " ++ fmt1 out.1.reading_speed ++ "x") ∧
    (let out := process_voice_command cfg (VoiceCommand.SetSpeed speed) pos
     (1 / 4 ≤ out.1.reading_speed ∧ out.1.reading_speed ≤ 3) ∧
     (1 / 4 ≤ speed → speed ≤ 3 → out.1.reading_speed = speed) ∧
     (speed < 1 / 4 → out.1.reading_speed = 1 / 4) ∧
     (3 < speed → out.1.reading_speed = 3) ∧
     out.2.action = some (VoiceAction.AdjustSpeed out.1.reading_speed) ∧
     out.2.should_speak = true ∧
     out.2.text = "Speed set to " ++ fmt1 out.1.reading_speed ++ "x") := by
  constructor <;>
  · simp only [process_voice_command, rustClamp]
    split_ifs with h1 h2
    all_goals try rw [not_lt] at h1
    all_goals try rw [not_lt] at h2
    all_goals refine ⟨⟨?_, ?_⟩, ?_, ?_, ?_, ?_, ?_, ?_⟩ <;> intros <;>
      first | rfl | trivial | linarith

/-- Witness for C8 at the default config (speed 1) and delta 0.25: the
stored speed becomes the unclamped sum 1.25. -/
theorem process_speed_commands_witness :
    (process_voice_command defaultVoiceConfig (VoiceCommand.AdjustSpeed (1 / 4))
        none).1.reading_speed = defaultVoiceConfig.reading_speed + 1 / 4 :=
  ((process_speed_commands defaultVoiceConfig (1 / 4) 1 none).1.2.1)
    (by norm_num [defaultVoiceConfig]) (by norm_num [defaultVoiceConfig])

/-- Claim C2: on an initialized manager in the `Idle` state, a first
`start_listening` (with the provider call succeeding) returns `Ok`, and a
second `start_listening` without an intervening `stop_listening` fails with
`InvalidState` and leaves the manager (in particular its state) unchanged:
the failed call returns exactly the manager it was given. -/
theorem start_listening_twice (m : VoiceManager) (res2 : Except VoiceError Unit)
    (hinit : m.is_initialized = true) (hidle : m.state = VoiceState.Idle) :
    (m.start_listening (Except.ok ())).2 = Except.ok () ∧
    (m.start_listening (Except.ok ())).1.start_listening res2 =
      ((m.start_listening (Except.ok ())).1,
       Except.error (VoiceError.InvalidState "Already active")) := by
  have hstt : m.sttInit = true := by
    unfold VoiceManager.is_initialized at hinit
    exact (Bool.and_eq_true _ _).mp hinit |>.1
  unfold VoiceManager.start_listening
  simp [hstt, hidle]

/-- Witness for C2 on a concrete initialized idle manager. -/
theorem start_listening_twice_witness :
    ((VoiceManager.mk defaultVoiceConfig true true VoiceState.Idle none).start_listening
        (Except.ok ())).2 = Except.ok () ∧
    ((VoiceManager.mk defaultVoiceConfig true true VoiceState.Idle none).start_listening
        (Except.ok ())).1.start_listening (Except.ok ()) =
      (((VoiceManager.mk defaultVoiceConfig true true VoiceState.Idle none).start_listening
        (Except.ok ())).1,
       Except.error (VoiceError.InvalidState "Already active")) :=
  start_listening_twice _ _ rfl rfl

/-- Claim C1 counterexample: an initialized manager in the `Listening` state
(not `Idle`) — `read_content` and `speak` both succeed (with succeeding
provider calls) instead of failing with `InvalidState` as the claim
states: neither operation checks the state. -/
theorem read_content_speak_invalid_state_cex :
    (VoiceManager.mk defaultVoiceConfig true true VoiceState.Listening none).state ≠
      VoiceState.Idle ∧
    ((VoiceManager.mk defaultVoiceConfig true true VoiceState.Listening none).read_content
        defaultPosition (Except.ok []) (Except.ok ())).2 = Except.ok [] ∧
    ((VoiceManager.mk defaultVoiceConfig true true VoiceState.Listening none).speak
        (Except.ok (AudioData.mk [] 22050 1)) (Except.ok ())).2 = Except.ok () := by
  refine ⟨by decide, ?_, ?_⟩ <;> rfl

/-- Claim C1 amended: `read_content` and `speak` perform no state check at
all — on every initialized manager, whatever its state, they proceed
unconditionally (never returning `InvalidState`): with succeeding provider
calls `read_content` returns the synchronizer's emissions and leaves the
state at `Reading`, and `speak` returns `Ok` and leaves the state at `Idle`.
Only `start_listening` enforces the Idle-only precondition. -/
theorem read_content_speak_no_state_check (m : VoiceManager)
    (pos : ReadingPosition) (timings : List WordTiming) (audio : AudioData)
    (hinit : m.is_initialized = true) :
    (m.read_content pos (Except.ok timings) (Except.ok ())).2 =
      Except.ok (syncLoop pos.document_id pos.page pos.paragraph_id 0 timings) ∧
    (m.read_content pos (Except.ok timings) (Except.ok ())).1.state =
      VoiceState.Reading ∧
    (m.speak (Except.ok audio) (Except.ok ())).2 = Except.ok () ∧
    (m.speak (Except.ok audio) (Except.ok ())).1.state = VoiceState.Idle := by
  have htts : m.ttsInit = true := by
    unfold VoiceManager.is_initialized at hinit
    exact (Bool.and_eq_true _ _).mp hinit |>.2
  unfold VoiceManager.read_content VoiceManager.speak
  simp [htts]

/-- Witness for C1 (amended) on a concrete initialized manager in the
`Processing` state. -/
theorem read_content_speak_no_state_check_witness :
    ((VoiceManager.mk defaultVoiceConfig true true VoiceState.Processing none).read_content
        defaultPosition (Except.ok [dTiming]) (Except.ok ())).2 =
      Except.ok (syncLoop defaultPosition.document_id defaultPosition.page
        defaultPosition.paragraph_id 0 [dTiming]) ∧
    ((VoiceManager.mk defaultVoiceConfig true true VoiceState.Processing none).read_content
        defaultPosition (Except.ok [dTiming]) (Except.ok ())).1.state =
      VoiceState.Reading ∧
    ((VoiceManager.mk defaultVoiceConfig true true VoiceState.Processing none).speak
        (Except.ok (AudioData.mk [] 22050 1)) (Except.ok ())).2 = Except.ok () ∧
    ((VoiceManager.mk defaultVoiceConfig true true VoiceState.Processing none).speak
        (Except.ok (AudioData.mk [] 22050 1)) (Except.ok ())).1.state = VoiceState.Idle :=
  read_content_speak_no_state_check _ defaultPosition [dTiming]
    (AudioData.mk [] 22050 1) rfl

/-- The synchronizer emits one position per word timing. -/
theorem syncLoop_length (d : String) (p : Nat) (g : String) (ts : List WordTiming) :
    ∀ i, (syncLoop d p g i ts).length = ts.length := by
  induction ts with
  | nil => intro i; rfl
  | cons t ts ih => intro i; simp [syncLoop, ih]

/-- Indexed description of the synchronizer's emissions: starting the `u32`
counter at `i < 2 ^ 32`, the `k`-th emission has `word_index (i + k) % 2^32`
and the `start_ms` of the `k`-th timing as its timestamp. -/
theorem syncLoop_getD_fields (d : String) (p : Nat) (g : String)
    (ts : List WordTiming) :
    ∀ i k, i < U32 → k < ts.length →
      ((syncLoop d p g i ts).getD k defaultPosition).word_index = (i + k) % U32 ∧
      ((syncLoop d p g i ts).getD k defaultPosition).timestamp_ms =
        (ts.getD k dTiming).start_ms := by
  induction ts with
  | nil => intro i k _ h; simp at h
  | cons t ts ih =>
    intro i k hi hk
    cases k with
    | zero => simp [syncLoop, Nat.mod_eq_of_lt hi]
    | succ k =>
      have h2 : (i + 1) % U32 < U32 := Nat.mod_lt _ (by norm_num [U32])
      have hrec := ih ((i + 1) % U32) k h2 (by simpa using hk)
      have hstep : (syncLoop d p g i (t :: ts)).getD (k + 1) defaultPosition =
          (syncLoop d p g ((i + 1) % U32) ts).getD k defaultPosition := by
        simp [syncLoop]
      refine ⟨?_, ?_⟩
      · rw [hstep, hrec.1, Nat.mod_add_mod]
        congr 1
        omega
      · rw [hstep, hrec.2]
        simp

/-- Claim C9 amended: within one `read_content` session (uncancelled, all
sends succeeding) the emitted `ReadingPosition` values have
`word_index = k mod 2^32` for the `k`-th emission and
`timestamp_ms` equal to the `start_ms` of the corresponding word timing;
for sessions of at most `2 ^ 32` words — every realistic session — the
`word_index` values are exactly `0, 1, 2, …` and strictly increase.  The
unamended for-every-session claim fails because the source's `u32` counter
wraps (see the counterexample). -/
theorem reading_positions_indexed (m : VoiceManager) (pos : ReadingPosition)
    (timings : List WordTiming) (hinit : m.is_initialized = true)
    (rx : List ReadingPosition)
    (hrx : (m.read_content pos (Except.ok timings) (Except.ok ())).2 = Except.ok rx) :
    rx.length = timings.length ∧
    (∀ k, k < timings.length →
      (rx.getD k defaultPosition).word_index = k % U32 ∧
      (rx.getD k defaultPosition).timestamp_ms = (timings.getD k dTiming).start_ms) ∧
    (timings.length ≤ U32 → ∀ k, k + 1 < timings.length →
      (rx.getD k defaultPosition).word_index = k ∧
      (rx.getD k defaultPosition).word_index <
        (rx.getD (k + 1) defaultPosition).word_index) := by
  have htts : m.ttsInit = true := by
    unfold VoiceManager.is_initialized at hinit
    exact (Bool.and_eq_true _ _).mp hinit |>.2
  unfold VoiceManager.read_content at hrx
  simp [htts] at hrx
  subst hrx
  have hU : 0 < U32 := by norm_num [U32]
  refine ⟨syncLoop_length _ _ _ _ 0, ?_, ?_⟩
  · intro k hk
    have h := syncLoop_getD_fields pos.document_id pos.page pos.paragraph_id
      timings 0 k hU hk
    simpa using h
  · intro hle k hk
    have h1 := syncLoop_getD_fields pos.document_id pos.page pos.paragraph_id
      timings 0 k hU (by omega)
    have h2 := syncLoop_getD_fields pos.document_id pos.page pos.paragraph_id
      timings 0 (k + 1) hU hk
    have e1 : (syncLoop pos.document_id pos.page pos.paragraph_id 0
        timings |>.getD k defaultPosition).word_index = k := by
      rw [h1.1]
      simp [Nat.mod_eq_of_lt (by omega : k < U32)]
    have e2 : (syncLoop pos.document_id pos.page pos.paragraph_id 0
        timings |>.getD (k + 1) defaultPosition).word_index = k + 1 := by
      rw [h2.1]
      simp [Nat.mod_eq_of_lt (by omega : k + 1 < U32)]
    exact ⟨e1, by rw [e1, e2]; omega⟩

/-- Claim C9 counterexample: a `read_content` session over `2^32 + 1` word
timings — the emission at index `2^32` has `word_index 0`, not `2^32`: the
source's `u32` counter wraps, so the `k`-th emission does not always carry
`word_index k` and the sequence is not strictly increasing. -/
theorem sync_word_index_cex :
    ((VoiceManager.mk defaultVoiceConfig true true VoiceState.Idle none).read_content
        defaultPosition (Except.ok (List.replicate (U32 + 1) dTiming))
        (Except.ok ())).2 =
      Except.ok (syncLoop "" 0 "" 0 (List.replicate (U32 + 1) dTiming)) ∧
    ((syncLoop "" 0 "" 0 (List.replicate (U32 + 1) dTiming)).getD U32
        defaultPosition).word_index ≠ U32 := by
  constructor
  · rfl
  · have h := (syncLoop_getD_fields "" 0 "" (List.replicate (U32 + 1) dTiming) 0 U32
      (by norm_num [U32]) (by simp)).1
    rw [h]
    norm_num [U32]

/-- Witness for C9 (amended) on a concrete two-word session: indices 0 then
1, strictly increasing. -/
theorem reading_positions_indexed_witness :
    ((syncLoop "" 0 "" 0 [dTiming, dTiming]).getD 0 defaultPosition).word_index = 0 ∧
    ((syncLoop "" 0 "" 0 [dTiming, dTiming]).getD 0 defaultPosition).word_index <
      ((syncLoop "" 0 "" 0 [dTiming, dTiming]).getD 1 defaultPosition).word_index :=
  (reading_positions_indexed
    (VoiceManager.mk defaultVoiceConfig true true VoiceState.Idle none)
    defaultPosition [dTiming, dTiming] rfl
    (syncLoop "" 0 "" 0 [dTiming, dTiming]) rfl).2.2
    (by norm_num [U32]) 0 (by norm_num)

/-! ### Parser-safety auxiliary lemmas (claim C10) -/

@[simp]
theorem startsWithC_nil (s : List Char) : startsWithC [] s = true := by
  cases s <;> rfl

@[simp]
theorem startsWithC_cons_nil (a : Char) (as : List Char) :
    startsWithC (a :: as) [] = false := rfl

@[simp]
theorem startsWithC_cons_cons (a b : Char) (as bs : List Char) :
    startsWithC (a :: as) (b :: bs) = (a == b && startsWithC as bs) := rfl

theorem rustToLower_cons (c : Char) (s : List Char) :
    rustToLower (c :: s) = rustLowerChar c ++ rustToLower s := by
  simp [rustToLower]

theorem utf8Len_pos (c : Char) : 1 ≤ utf8Len c := by
  unfold utf8Len
  split_ifs <;> norm_num

theorem utf8Len_eq_one (c : Char) (h : c.val < 0x80) : utf8Len c = 1 := by
  unfold utf8Len
  simp [h]

theorem byteLen_ascii (p : List Char) (h : ∀ c ∈ p, c.val < 0x80) :
    byteLen p = p.length := by
  induction p with
  | nil => rfl
  | cons c p ih =>
    have h1 := utf8Len_eq_one c (h c (by simp))
    simp [byteLen] at ih ⊢
    rw [h1, ih fun d hd => h d (by simp [hd])]
    omega

theorem val_toNat_ofNat_valid (n : Nat) (h : n.isValidChar) :
    (Char.ofNat n).val.toNat = n := by
  unfold Char.ofNat
  rw [dif_pos h]
  rfl

theorem uint32_lt_iff_toNat_lt (a b : UInt32) : a < b ↔ a.toNat < b.toNat := by
  rw [UInt32.lt_def, BitVec.lt_def]
  rfl

theorem asciiLower_ascii (c : Char) (h : c.val < 0x80) : (asciiLower c).val < 0x80 := by
  unfold asciiLower
  split_ifs with hc
  · have hv : (c.toNat + 32).isValidChar := Or.inl (by omega)
    rw [uint32_lt_iff_toNat_lt, val_toNat_ofNat_valid _ hv]
    have h128 : (128 : UInt32).toNat = 128 := rfl
    omega
  · exact h

theorem rustLowerChar_cases (c : Char) :
    (c = latinCapitalIWithDot ∧ rustLowerChar c = ['i', combiningDotAbove]) ∨
    (c = kelvinSign ∧ rustLowerChar c = ['k']) ∨
    (c = ohmSign ∧ rustLowerChar c = [smallOmega]) ∨
    (c = angstromSign ∧ rustLowerChar c = [smallARing]) ∨
    (c.val < 0x80 ∧ rustLowerChar c = [asciiLower c]) ∨
    (¬c.val < 0x80 ∧ rustLowerChar c = [c]) := by
  unfold rustLowerChar
  split_ifs with h1 h2 h3 h4 h5
  · exact Or.inl ⟨h1, rfl⟩
  · exact Or.inr (Or.inl ⟨h2, rfl⟩)
  · exact Or.inr (Or.inr (Or.inl ⟨h3, rfl⟩))
  · exact Or.inr (Or.inr (Or.inr (Or.inl ⟨h4, rfl⟩)))
  · exact Or.inr (Or.inr (Or.inr (Or.inr (Or.inl ⟨h5, rfl⟩))))
  · exact Or.inr (Or.inr (Or.inr (Or.inr (Or.inr ⟨h5, rfl⟩))))

theorem byteDrop_ascii_region : ∀ (pre : List Char) (post : List Char) (j : Nat),
    j ≤ pre.length → (∀ c ∈ pre, c.val < 0x80) →
    (byteDrop j (pre ++ post)).isSome := by
  intro pre
  induction pre with
  | nil =>
    intro post j hj _
    have hz : j = 0 := by simpa using hj
    subst hz
    simp [byteDrop]
  | cons c pre ih =>
    intro post j hj hA
    cases j with
    | zero => simp [byteDrop]
    | succ j =>
      have hc : utf8Len c = 1 := utf8Len_eq_one c (hA c (by simp))
      have hstep : byteDrop (j + 1) (c :: (pre ++ post)) = byteDrop j (pre ++ post) := by
        simp [byteDrop, hc]
      rw [List.cons_append, hstep]
      exact ih post j (by simpa using hj) fun d hd => hA d (by simp [hd])

theorem uint32_le_iff_toNat_le (a b : UInt32) : a ≤ b ↔ a.toNat ≤ b.toNat := by
  rw [UInt32.le_def, BitVec.le_def]
  rfl

theorem ascii_region_of_matches : ∀ (orig p : List Char),
    (∀ c ∈ p, c.val < 0x80 ∧ c ≠ 'k') → p.getLast? ≠ some 'i' →
    startsWithC p (rustToLower orig) = true →
    ∃ pre post, orig = pre ++ post ∧ pre.length = p.length ∧
      ∀ c ∈ pre, c.val < 0x80 := by
  intro orig
  induction orig with
  | nil =>
    intro p hA _ hsw
    cases p with
    | nil => exact ⟨[], [], rfl, rfl, by simp⟩
    | cons q p' => simp [rustToLower] at hsw
  | cons c rest ih =>
    intro p hA hlast hsw
    cases p with
    | nil => exact ⟨[], c :: rest, rfl, rfl, by simp⟩
    | cons q p' =>
      rw [rustToLower_cons] at hsw
      rcases rustLowerChar_cases c with ⟨hc, he⟩ | ⟨hc, he⟩ | ⟨hc, he⟩ | ⟨hc, he⟩ |
        ⟨hc, he⟩ | ⟨hc, he⟩ <;> rw [he] at hsw
      · simp only [List.cons_append, startsWithC_cons_cons, Bool.and_eq_true,
          beq_iff_eq] at hsw
        obtain ⟨hq, hsw'⟩ := hsw
        cases p' with
        | nil => exact absurd (by simp [hq]) hlast
        | cons r p'' =>
          simp only [List.nil_append, startsWithC_cons_cons, Bool.and_eq_true,
            beq_iff_eq] at hsw'
          obtain ⟨hr, _⟩ := hsw'
          have hra := (hA r (by simp)).1
          rw [hr] at hra
          exact absurd hra (by decide)
      · simp only [List.cons_append, List.nil_append, startsWithC_cons_cons,
          Bool.and_eq_true, beq_iff_eq] at hsw
        exact absurd hsw.1 (hA q (by simp)).2
      · simp only [List.cons_append, List.nil_append, startsWithC_cons_cons,
          Bool.and_eq_true, beq_iff_eq] at hsw
        have hqa := (hA q (by simp)).1
        rw [hsw.1] at hqa
        exact absurd hqa (by decide)
      · simp only [List.cons_append, List.nil_append, startsWithC_cons_cons,
          Bool.and_eq_true, beq_iff_eq] at hsw
        have hqa := (hA q (by simp)).1
        rw [hsw.1] at hqa
        exact absurd hqa (by decide)
      · simp only [List.cons_append, List.nil_append, startsWithC_cons_cons,
          Bool.and_eq_true, beq_iff_eq] at hsw
        obtain ⟨hq, hsw'⟩ := hsw
        obtain ⟨pre, post, h1, h2, h3⟩ := ih p'
          (fun d hd => hA d (by simp [hd]))
          (by
            cases p' with
            | nil => simp
            | cons r p'' => simpa [List.getLast?_cons_cons] using hlast)
          hsw'
        refine ⟨c :: pre, post, by rw [h1, List.cons_append], by simp [h2], ?_⟩
        intro d hd
        rcases List.mem_cons.mp hd with h | h
        · rw [h]; exact hc
        · exact h3 d h
      · simp only [List.cons_append, List.nil_append, startsWithC_cons_cons,
          Bool.and_eq_true, beq_iff_eq] at hsw
        have hqa := (hA q (by simp)).1
        rw [hsw.1] at hqa
        exact absurd hqa hc

theorem byteDrop_startsWith : ∀ (p orig : List Char),
    startsWithC p orig = true → (byteDrop (byteLen p) orig).isSome := by
  intro p
  induction p with
  | nil => intro orig _; simp [byteLen, byteDrop]
  | cons q p' ih =>
    intro orig hsw
    cases orig with
    | nil => simp at hsw
    | cons c rest =>
      simp only [startsWithC_cons_cons, Bool.and_eq_true, beq_iff_eq] at hsw
      obtain ⟨hqc, hsw'⟩ := hsw
      have hbl : byteLen (q :: p') = utf8Len q + byteLen p' := by simp [byteLen]
      rw [hbl, hqc]
      have h1 := utf8Len_pos c
      obtain ⟨k, hk⟩ : ∃ k, utf8Len c + byteLen p' = k + 1 :=
        ⟨utf8Len c + byteLen p' - 1, by omega⟩
      rw [hk]
      have hle : utf8Len c ≤ k + 1 := by omega
      have hstep : byteDrop (k + 1) (c :: rest) = byteDrop (k + 1 - utf8Len c) rest := by
        simp [byteDrop, hle]
      rw [hstep, show k + 1 - utf8Len c = byteLen p' from by omega]
      exact ih rest hsw'

theorem selfSafe_matches_self : ∀ (orig p : List Char), selfSafeB p = true →
    startsWithC p (rustToLower orig) = true → startsWithC p orig = true := by
  intro orig
  induction orig with
  | nil =>
    intro p _ hsw
    cases p with
    | nil => rfl
    | cons q p' => simp [rustToLower] at hsw
  | cons c rest ih =>
    intro p hsafe hsw
    cases p with
    | nil => rfl
    | cons q p' =>
      have hq := (List.all_eq_true.mp hsafe) q (by simp)
      simp only [Bool.and_eq_true, bne_iff_ne, decide_eq_true_eq] at hq
      obtain ⟨⟨⟨hqv, hqd⟩, hqo⟩, hqa⟩ := hq
      rw [rustToLower_cons] at hsw
      rcases rustLowerChar_cases c with ⟨hc, he⟩ | ⟨hc, he⟩ | ⟨hc, he⟩ | ⟨hc, he⟩ |
        ⟨hc, he⟩ | ⟨hc, he⟩ <;> rw [he] at hsw <;>
        simp only [List.cons_append, List.nil_append, startsWithC_cons_cons,
          Bool.and_eq_true, beq_iff_eq] at hsw
      · rw [hsw.1] at hqv
        exact absurd hqv (by decide)
      · rw [hsw.1] at hqv
        exact absurd hqv (by decide)
      · exact absurd hsw.1 hqo
      · exact absurd hsw.1 hqa
      · have hlow := asciiLower_ascii c hc
        rw [← hsw.1] at hlow
        have t1 := (uint32_lt_iff_toNat_lt q.val 0x80).mp hlow
        have t2 := (uint32_le_iff_toNat_le 0x80 q.val).mp hqv
        have t3 : (0x80 : UInt32).toNat = 128 := rfl
        omega
      · obtain ⟨hq1, hsw'⟩ := hsw
        have hrec := ih p' (by
          refine List.all_eq_true.mpr ?_
          intro d hd
          exact List.all_eq_true.mp hsafe d (by simp [hd])) hsw'
        simp [hq1, hrec]

theorem sliceSafe_ascii : ∀ (p : List Char), sliceSafe p = true → ∀ c ∈ p, c.val < 0x80 := by
  intro p
  induction p with
  | nil => intro _ c hc; simp at hc
  | cons c p ih =>
    intro hs d hd
    unfold sliceSafe at hs
    by_cases hck : (c == 'k') = true
    · rw [if_pos hck] at hs
      simp only [Bool.and_eq_true, List.all_eq_true, bne_iff_ne,
        decide_eq_true_eq] at hs
      rcases List.mem_cons.mp hd with h | h
      · rw [h, (beq_iff_eq (a := c) (b := 'k')).mp hck]; decide
      · exact (hs.1.1 d h).1
    · rw [if_neg hck] at hs
      simp only [Bool.and_eq_true, decide_eq_true_eq] at hs
      rcases List.mem_cons.mp hd with h | h
      · rw [h]; exact hs.1.1
      · exact ih hs.2 d h

theorem byteDrop_of_sliceSafe : ∀ (orig p : List Char),
    sliceSafe p = true → startsWithC p (rustToLower orig) = true →
    (byteDrop (byteLen p) orig).isSome := by
  intro orig
  induction orig with
  | nil =>
    intro p hp hsw
    cases p with
    | nil => simp [byteLen, byteDrop]
    | cons q p' => simp [rustToLower] at hsw
  | cons c rest ih =>
    intro p hp hsw
    cases p with
    | nil => simp [byteLen, byteDrop]
    | cons q p' =>
      have hascii := sliceSafe_ascii _ hp
      have hblen : byteLen (q :: p') = p'.length + 1 := by
        rw [byteLen_ascii _ hascii]
        simp
      rw [rustToLower_cons] at hsw
      unfold sliceSafe at hp
      by_cases hqk : (q == 'k') = true
      · rw [if_pos hqk] at hp
        have hqk' : q = 'k' := by simpa using hqk
        simp only [Bool.and_eq_true, List.all_eq_true, bne_iff_ne,
          decide_eq_true_eq] at hp
        obtain ⟨⟨hall, hlen2⟩, hlast⟩ := hp
        rcases rustLowerChar_cases c with ⟨hc, he⟩ | ⟨hc, he⟩ | ⟨hc, he⟩ | ⟨hc, he⟩ |
          ⟨hc, he⟩ | ⟨hc, he⟩ <;> rw [he] at hsw <;>
          simp only [List.cons_append, List.nil_append, startsWithC_cons_cons,
            Bool.and_eq_true, beq_iff_eq] at hsw
        · rw [hqk'] at hsw
          exact absurd hsw.1 (by decide)
        · obtain ⟨pre, post, hr, hl, hA⟩ := ascii_region_of_matches rest p'
            (fun d hd => hall d hd) (by simpa [hqk', List.getLast?_cons_cons] using
              hlast) hsw.2
          subst hc
          rw [hblen]
          have hk3 : utf8Len kelvinSign = 3 := by decide
          have hle3 : 3 ≤ p'.length + 1 := by omega
          have hstep : byteDrop (p'.length + 1) (kelvinSign :: rest) =
              byteDrop (p'.length + 1 - 3) rest := by
            simp [byteDrop, hk3, hle3]
          rw [hstep, hr]
          exact byteDrop_ascii_region pre post _ (by omega) hA
        · rw [hqk'] at hsw
          exact absurd hsw.1 (by decide)
        · rw [hqk'] at hsw
          exact absurd hsw.1 (by decide)
        · obtain ⟨pre, post, hr, hl, hA⟩ := ascii_region_of_matches rest p'
            (fun d hd => hall d hd) (by simpa [hqk', List.getLast?_cons_cons] using
              hlast) hsw.2
          rw [hblen]
          have hc1 : utf8Len c = 1 := utf8Len_eq_one c hc
          have hstep : byteDrop (p'.length + 1) (c :: rest) =
              byteDrop (p'.length) rest := by
            simp [byteDrop, hc1]
          rw [hstep, hr]
          exact byteDrop_ascii_region pre post _ (by omega) hA
        · rw [hqk'] at hsw
          rw [← hsw.1] at hc
          exact absurd (by decide : ('k' : Char).val < 0x80) hc
      · rw [if_neg hqk] at hp
        simp only [Bool.and_eq_true, decide_eq_true_eq] at hp
        obtain ⟨⟨hqv, hqi⟩, hrec⟩ := hp
        rcases rustLowerChar_cases c with ⟨hc, he⟩ | ⟨hc, he⟩ | ⟨hc, he⟩ | ⟨hc, he⟩ |
          ⟨hc, he⟩ | ⟨hc, he⟩ <;> rw [he] at hsw <;>
          simp only [List.cons_append, List.nil_append, startsWithC_cons_cons,
            Bool.and_eq_true, beq_iff_eq] at hsw
        · obtain ⟨hq, hsw'⟩ := hsw
          cases p' with
          | nil =>
            rw [hq] at hqi
            simp at hqi
          | cons r p'' =>
            simp only [startsWithC_cons_cons, Bool.and_eq_true, beq_iff_eq] at hsw'
            have hra := sliceSafe_ascii _ hrec r (by simp)
            rw [hsw'.1] at hra
            exact absurd hra (by decide)
        · rw [hsw.1] at hqk
          simp at hqk
        · rw [hsw.1] at hqv
          exact absurd hqv (by decide)
        · rw [hsw.1] at hqv
          exact absurd hqv (by decide)
        · rw [hblen]
          have hc1 : utf8Len c = 1 := utf8Len_eq_one c hc
          have hstep : byteDrop (p'.length + 1) (c :: rest) =
              byteDrop (p'.length) rest := by
            simp [byteDrop, hc1]
          rw [hstep]
          have hihp := ih p' hrec hsw.2
          rwa [byteLen_ascii p' fun d hd => hascii d (by simp [hd])] at hihp
        · rw [hsw.1] at hqv
          exact absurd hqv hc

theorem byteDrop_of_prefixOk (t p : List Char) (hp : prefixSliceOk p = true)
    (hsw : startsWithC p (rustToLower t) = true) :
    (byteDrop (byteLen p) t).isSome := by
  unfold prefixSliceOk at hp
  rcases (Bool.or_eq_true _ _).mp hp with h | h
  · exact byteDrop_of_sliceSafe t p h hsw
  · exact byteDrop_startsWith p t (selfSafe_matches_self t p h hsw)

theorem noteLoop_ne_none (t : List Char) : ∀ (ps : List (List Char)),
    (∀ p ∈ ps, prefixSliceOk p = true) →
    noteLoop (rustToLower t) t ps ≠ none := by
  intro ps
  induction ps with
  | nil => simp [noteLoop]
  | cons p ps ih =>
    intro hall
    unfold noteLoop
    by_cases hsw : startsWithC p (rustToLower t) = true
    · rw [if_pos hsw]
      by_cases hcol : ((rustToLower t).contains ':') = true
      · rw [if_pos hcol]
        cases hso : splitOnceColon t with
        | none => exact ih fun q hq => hall q (by simp [hq])
        | some pr =>
          dsimp only
          split_ifs with he
          · exact ih fun q hq => hall q (by simp [hq])
          · simp
      · rw [if_neg hcol]
        cases hbd : byteDrop (byteLen p) t with
        | none =>
          have hx := byteDrop_of_prefixOk t p (hall p (by simp)) hsw
          rw [hbd] at hx
          simp at hx
        | some rest =>
          dsimp only
          split_ifs with he
          · exact ih fun q hq => hall q (by simp [hq])
          · simp
    · rw [if_neg hsw]
      exact ih fun q hq => hall q (by simp [hq])

theorem searchLoop_ne_none (t : List Char) : ∀ (ps : List (List Char)),
    (∀ p ∈ ps, prefixSliceOk p = true) →
    searchLoop (rustToLower t) t ps ≠ none := by
  intro ps
  induction ps with
  | nil => simp [searchLoop]
  | cons p ps ih =>
    intro hall
    unfold searchLoop
    by_cases hsw : startsWithC p (rustToLower t) = true
    · rw [if_pos hsw]
      cases hbd : byteDrop (byteLen p) t with
      | none =>
        have hx := byteDrop_of_prefixOk t p (hall p (by simp)) hsw
        rw [hbd] at hx
        simp at hx
      | some rest =>
        dsimp only
        split_ifs with he
        · exact ih fun q hq => hall q (by simp [hq])
        · simp
    · rw [if_neg hsw]
      exact ih fun q hq => hall q (by simp [hq])

theorem notePrefixes_ok : ∀ p ∈ notePrefixes, prefixSliceOk p = true := by decide

theorem searchPrefixes_ok : ∀ p ∈ searchPrefixes, prefixSliceOk p = true := by decide

theorem reading_cmd_not_unknown {lw : List Char} {cmd : VoiceCommand}
    (h : parse_reading_command lw = some cmd) : ∀ t, cmd ≠ VoiceCommand.Unknown t := by
  unfold parse_reading_command at h
  split_ifs at h
  all_goals first
    | exact Option.noConfusion h
    | (cases h; intro t hco; exact VoiceCommand.noConfusion hco)

theorem nav_cmd_not_unknown {lw : List Char} {cmd : VoiceCommand}
    (h : parse_navigation_command lw = some cmd) : ∀ t, cmd ≠ VoiceCommand.Unknown t := by
  unfold parse_navigation_command at h
  split_ifs at h
  all_goals try split at h
  all_goals first
    | exact Option.noConfusion h
    | (cases h; intro t hco; exact VoiceCommand.noConfusion hco)

theorem speed_cmd_not_unknown {lw : List Char} {cmd : VoiceCommand}
    (h : parse_speed_command lw = some cmd) : ∀ t, cmd ≠ VoiceCommand.Unknown t := by
  unfold parse_speed_command at h
  split_ifs at h
  all_goals try split at h
  all_goals try split_ifs at h
  all_goals first
    | exact Option.noConfusion h
    | (cases h; intro t hco; exact VoiceCommand.noConfusion hco)

theorem summarize_cmd_not_unknown {lw : List Char} {cmd : VoiceCommand}
    (h : parse_summarize_command lw = some cmd) : ∀ t, cmd ≠ VoiceCommand.Unknown t := by
  unfold parse_summarize_command at h
  split_ifs at h
  all_goals first
    | exact Option.noConfusion h
    | (cases h; intro t hco; exact VoiceCommand.noConfusion hco)

theorem zoom_cmd_not_unknown {lw : List Char} {cmd : VoiceCommand}
    (h : parse_zoom_command lw = some cmd) : ∀ t, cmd ≠ VoiceCommand.Unknown t := by
  unfold parse_zoom_command at h
  split_ifs at h
  all_goals first
    | exact Option.noConfusion h
    | (cases h; intro t hco; exact VoiceCommand.noConfusion hco)

/-- Claim C10: `VoiceCommandParser::parse` is total — for every input
string it returns a command without panicking; in particular every byte
slice `original[prefix.len()..]` that the note/search rules compute from
lowercased prefix lengths is in bounds and on a character boundary (the
`some`-ness of `parse`, whose `none` models exactly the panicking
executions) — it never returns the `Unknown` variant, and inputs matching
no rule that do not end in `?` yield `FreeText` carrying the trimmed
input. -/
theorem parse_total_never_unknown (s : List Char) :
    ∃ c, parse s = some c ∧ (∀ t, c ≠ VoiceCommand.Unknown t) ∧
      (RuleFree s → endsWithQmark (trimChars s) = false →
        c = VoiceCommand.FreeText (trimChars s)) := by
  have hnote : parse_note_command (rustToLower (trimChars s)) (trimChars s) ≠ none :=
    noteLoop_ne_none (trimChars s) notePrefixes notePrefixes_ok
  have hsearch : parse_search_command (rustToLower (trimChars s)) (trimChars s) ≠ none :=
    searchLoop_ne_none (trimChars s) searchPrefixes searchPrefixes_ok
  rcases hn : parse_note_command (rustToLower (trimChars s)) (trimChars s) with _ | nc
  · exact absurd hn hnote
  cases nc with
  | some content =>
    refine ⟨VoiceCommand.NoteDown content, by simp only [parse, hn], ?_, ?_⟩
    · intro t hco; exact VoiceCommand.noConfusion hco
    · intro hr _
      have hx := hr.1.symm.trans hn
      simp at hx
  | none =>
  rcases hq : parse_question_command (rustToLower (trimChars s)) (trimChars s) with _ | q
  case some =>
    refine ⟨VoiceCommand.AskQuestion q, by simp only [parse, hn, hq], ?_, ?_⟩
    · intro t hco; exact VoiceCommand.noConfusion hco
    · intro hr _
      have hx := hr.2.1.symm.trans hq
      simp at hx
  case none =>
  rcases hh : parse_highlight_command (rustToLower (trimChars s)) with _ | color
  case some =>
    refine ⟨VoiceCommand.Highlight color, by simp only [parse, hn, hq, hh], ?_, ?_⟩
    · intro t hco; exact VoiceCommand.noConfusion hco
    · intro hr _
      have hx := hr.2.2.1.symm.trans hh
      simp at hx
  case none =>
  rcases hrd : parse_reading_command (rustToLower (trimChars s)) with _ | cmd
  case some =>
    refine ⟨cmd, by simp only [parse, hn, hq, hh, hrd], reading_cmd_not_unknown hrd, ?_⟩
    intro hr _
    have hx := hr.2.2.2.1.symm.trans hrd
    simp at hx
  case none =>
  rcases hnv : parse_navigation_command (rustToLower (trimChars s)) with _ | cmd
  case some =>
    refine ⟨cmd, by simp only [parse, hn, hq, hh, hrd, hnv],
      nav_cmd_not_unknown hnv, ?_⟩
    intro hr _
    have hx := hr.2.2.2.2.1.symm.trans hnv
    simp at hx
  case none =>
  rcases hsp : parse_speed_command (rustToLower (trimChars s)) with _ | cmd
  case some =>
    refine ⟨cmd, by simp only [parse, hn, hq, hh, hrd, hnv, hsp],
      speed_cmd_not_unknown hsp, ?_⟩
    intro hr _
    have hx := hr.2.2.2.2.2.1.symm.trans hsp
    simp at hx
  case none =>
  rcases hsm : parse_summarize_command (rustToLower (trimChars s)) with _ | cmd
  case some =>
    refine ⟨cmd, by simp only [parse, hn, hq, hh, hrd, hnv, hsp, hsm],
      summarize_cmd_not_unknown hsm, ?_⟩
    intro hr _
    have hx := hr.2.2.2.2.2.2.1.symm.trans hsm
    simp at hx
  case none =>
  rcases hdf : parse_define_command (rustToLower (trimChars s)) (trimChars s) with _ | w
  case some =>
    refine ⟨VoiceCommand.Define w,
      by simp only [parse, hn, hq, hh, hrd, hnv, hsp, hsm, hdf], ?_, ?_⟩
    · intro t hco; exact VoiceCommand.noConfusion hco
    · intro hr _
      have hx := hr.2.2.2.2.2.2.2.1.symm.trans hdf
      simp at hx
  case none =>
  rcases htr : parse_translate_command (rustToLower (trimChars s)) with _ | lang
  case some =>
    refine ⟨VoiceCommand.Translate lang,
      by simp only [parse, hn, hq, hh, hrd, hnv, hsp, hsm, hdf, htr], ?_, ?_⟩
    · intro t hco; exact VoiceCommand.noConfusion hco
    · intro hr _
      have hx := hr.2.2.2.2.2.2.2.2.1.symm.trans htr
      simp at hx
  case none =>
  rcases hsr : parse_search_command (rustToLower (trimChars s)) (trimChars s) with _ | sc
  · exact absurd hsr hsearch
  cases sc with
  | some query =>
    refine ⟨VoiceCommand.Search query,
      by simp only [parse, hn, hq, hh, hrd, hnv, hsp, hsm, hdf, htr, hsr], ?_, ?_⟩
    · intro t hco; exact VoiceCommand.noConfusion hco
    · intro hr _
      have hx := hr.2.2.2.2.2.2.2.2.2.1.symm.trans hsr
      simp at hx
  | none =>
  rcases hz : parse_zoom_command (rustToLower (trimChars s)) with _ | cmd
  case some =>
    refine ⟨cmd, by simp only [parse, hn, hq, hh, hrd, hnv, hsp, hsm, hdf, htr, hsr, hz],
      zoom_cmd_not_unknown hz, ?_⟩
    intro hr _
    have hx := hr.2.2.2.2.2.2.2.2.2.2.symm.trans hz
    simp at hx
  case none =>
  by_cases hqm : endsWithQmark (trimChars s) = true
  case pos =>
    refine ⟨VoiceCommand.AskQuestion (trimChars s),
      by simp only [parse, hn, hq, hh, hrd, hnv, hsp, hsm, hdf, htr, hsr, hz, hqm,
        if_true], ?_, ?_⟩
    · intro t hco; exact VoiceCommand.noConfusion hco
    · intro _ hqf
      rw [hqf] at hqm
      exact absurd hqm (by simp)
  case neg =>
    have hqm2 : endsWithQmark (trimChars s) = false := by simpa using hqm
    refine ⟨VoiceCommand.FreeText (trimChars s),
      by simp only [parse, hn, hq, hh, hrd, hnv, hsp, hsm, hdf, htr, hsr, hz, hqm2,
        Bool.false_eq_true, if_false], ?_, ?_⟩
    · intro t hco; exact VoiceCommand.noConfusion hco
    · intro _ _; rfl

/-- Witness for C10 at a concrete rule-free input. -/
theorem parse_total_never_unknown_witness :
    parse "good morning everyone".data =
      some (VoiceCommand.FreeText (trimChars "good morning everyone".data)) := by
  have hr : RuleFree "good morning everyone".data := by
    unfold RuleFree
    decide
  obtain ⟨c, hc, _, hf⟩ := parse_total_never_unknown "good morning everyone".data
  rw [hf hr (by decide)] at hc
  exact hc
